import Mathlib

/-!
Verification of the Anvil source-based package manager (`anvil.py`).

This file gives a shallow embedding of the parts of `anvil.py` the claims
are about: `RepoIndex.normalize_url` / `has_url` / `add_local` (together with
the slice of CPython's `urllib.parse.urlparse` that `normalize_url` calls),
the `safe_rmtree` guard, `AutoBuilder.detect`, `Anvil.housekeeping` and
`Anvil._link_binaries`.  Strings are modelled as `List Char` internally
(`String` wrappers are provided with the source names).  All definitions are
executable, so concrete runs of the code can be checked by `decide`/`rfl`.
-/

/-! ## Python string primitives (ASCII model) -/

abbrev Chars := List Char

/-- Python `str.strip()` whitespace set (ASCII part). -/
def isPySpace (c : Char) : Bool :=
  c == ' ' || c == '\t' || c == '\n' || c == '\x0d' || c == '\x0b' || c == '\x0c'

/-- Python `str.strip()`: drop leading and trailing whitespace. -/
def pyStrip (s : Chars) : Chars :=
  ((s.dropWhile isPySpace).reverse.dropWhile isPySpace).reverse

/-- Uppercase-to-lowercase table (ASCII): Python `str.lower()` on the ASCII
inputs this development works with. -/
def upperLowerTable : List (Char × Char) :=
  [('A','a'), ('B','b'), ('C','c'), ('D','d'), ('E','e'), ('F','f'), ('G','g'),
   ('H','h'), ('I','i'), ('J','j'), ('K','k'), ('L','l'), ('M','m'), ('N','n'),
   ('O','o'), ('P','p'), ('Q','q'), ('R','r'), ('S','s'), ('T','t'), ('U','u'),
   ('V','v'), ('W','w'), ('X','x'), ('Y','y'), ('Z','z')]

/-- Python `str.lower()` on one character (ASCII model). -/
def lowerChar (c : Char) : Char :=
  match upperLowerTable.find? (fun q => q.1 == c) with
  | some q => q.2
  | none => c

/-- Python `str.upper()` on one character (ASCII model). -/
def upperChar (c : Char) : Char :=
  match upperLowerTable.find? (fun q => q.2 == c) with
  | some q => q.1
  | none => c

/-- Python `str.lower()` (ASCII model). -/
def lowerL (s : Chars) : Chars := s.map lowerChar

/-- Python `str.upper()` (ASCII model). -/
def upperL (s : Chars) : Chars := s.map upperChar

/-- Split a list at the first character satisfying `p`:
`breakAt p s = (before, fromMatch)` where `fromMatch` starts with the first
match of `p` (or is `[]` when there is none). -/
def breakAt (p : Char → Bool) : Chars → Chars × Chars
  | [] => ([], [])
  | c :: cs =>
    match p c with
    | true => ([], c :: cs)
    | false => (c :: (breakAt p cs).1, (breakAt p cs).2)

/-- Python `s.split(d, 1)` when it yields two parts: the part before the
first `d` and the part after it; `none` when `d` does not occur. -/
def splitFirst (d : Char) (s : Chars) : Option (Chars × Chars) :=
  match breakAt (fun c => c == d) s with
  | (_, []) => none
  | (l, _ :: r) => some (l, r)

/-- Part of `s` after the last occurrence of `d` (`s.rpartition(d)[2]`);
the whole of `s` when `d` does not occur. -/
def afterLast (d : Char) (s : Chars) : Chars :=
  ((breakAt (fun c => c == d) s.reverse).1).reverse

/-- Python substring test `needle in hay`. -/
def containsSub (needle : Chars) : Chars → Bool
  | [] => needle.isPrefixOf []
  | c :: cs => needle.isPrefixOf (c :: cs) || containsSub needle cs

/-- Python `path.rstrip('/')`: drop every trailing slash. -/
def rstripSlash (s : Chars) : Chars :=
  (s.reverse.dropWhile (fun c => c == '/')).reverse

/-- `path.endswith('.git')`. -/
def endsGit (s : Chars) : Bool := List.isSuffixOf ('.' :: 'g' :: 'i' :: 't' :: []) s

/-- Python `path[:-4]`. -/
def dropLast4 (s : Chars) : Chars := s.take (s.length - 4)

/-- `pathlib.PurePath.stem`: the file name minus its last suffix.  A suffix
exists only when the last dot sits strictly inside the name
(`0 < i < len(name) - 1` in CPython's pathlib). -/
def pyStemChars (n : Chars) : Chars :=
  match breakAt (fun c => c == '.') n.reverse with
  | (_, []) => n
  | (revSuffix, _ :: revStem) =>
    if revStem.length == 0 then n
    else if revSuffix.length == 0 then n
    else revStem.reverse

/-- `pathlib.PurePath.suffix`: the last extension including the dot, or `[]`. -/
def pySuffixChars (n : Chars) : Chars :=
  match breakAt (fun c => c == '.') n.reverse with
  | (_, []) => []
  | (revSuffix, _ :: revStem) =>
    if revStem.length == 0 then []
    else if revSuffix.length == 0 then []
    else '.' :: revSuffix.reverse

/-- String wrapper for `pyStemChars` (`Path(name).stem`). -/
def pyStemS (n : String) : String := String.mk (pyStemChars n.data)

/-- String wrapper for `containsSub` (Python `needle in hay`). -/
def containsSubS (hay needle : String) : Bool := containsSub needle.data hay.data

/-- Python `s.startswith(pre)`. -/
def pyStartsWith (s pre : String) : Bool := pre.data.isPrefixOf s.data

/-- Python `s.endswith(sfx)`. -/
def pyEndsWith (s sfx : String) : Bool := List.isSuffixOf sfx.data s.data

/-- Python `s.replace(pat, rep)` for a nonempty pattern: scan left to right,
replacing non-overlapping occurrences (fuel-indexed structural recursion so
that runs reduce inside the kernel). -/
def pyReplaceAux (pat rep : Chars) : Nat → Chars → Chars
  | _, [] => []
  | 0, s => s
  | Nat.succ fuel, c :: cs =>
    if pat.isPrefixOf (c :: cs) then rep ++ pyReplaceAux pat rep fuel ((c :: cs).drop pat.length)
    else c :: pyReplaceAux pat rep fuel cs

def pyReplace (s pat rep : String) : String :=
  String.mk (pyReplaceAux pat.data rep.data s.data.length s.data)

/-! ## The slice of CPython `urllib.parse` used by `normalize_url` -/

/-- Characters CPython's `urlsplit` deletes from the URL before parsing
(`_UNSAFE_URL_BYTES_TO_REMOVE`): tab, CR, LF. -/
def keepUrlChar (c : Char) : Bool := !(c == '\t' || c == '\x0d' || c == '\n')

/-- WHATWG C0-control-or-space class: CPython's `urlsplit` strips these from
the front of the URL. -/
def isC0OrSpace (c : Char) : Bool := c.toNat ≤ 0x20

/-- Characters allowed in a URL scheme (`urllib.parse.scheme_chars`). -/
def isSchemeChar (c : Char) : Bool :=
  c.isAlpha || c.isDigit || c == '+' || c == '-' || c == '.'

/-- First character is an ASCII letter (`url[0].isascii() and url[0].isalpha()`). -/
def headAlpha (l : Chars) : Bool :=
  match l with
  | [] => false
  | c :: _ => c.isAlpha

def isColonChar (c : Char) : Bool := c == ':'

def netlocStop (c : Char) : Bool := c == '/' || c == '?' || c == '#'

def pathStop (c : Char) : Bool := c == '#' || c == '?'

structure UrlParts where
  scheme : Chars
  netloc : Chars
  path : Chars
deriving DecidableEq, Repr

/-- CPython `urllib.parse.urlsplit`, restricted to the `scheme`/`netloc`/`path`
components `normalize_url` reads. -/
def pyUrlsplit (url : Chars) : UrlParts :=
  let url := url.dropWhile isC0OrSpace
  let url := url.filter keepUrlChar
  let sp :=
    match breakAt isColonChar url with
    | (_, []) => (([] : Chars), url)
    | (pre, _ :: post) =>
      if headAlpha pre && pre.all isSchemeChar then (lowerL pre, post)
      else (([] : Chars), url)
  let rest := sp.2
  let np :=
    if ('/' :: '/' :: []).isPrefixOf rest then breakAt netlocStop (rest.drop 2)
    else (([] : Chars), rest)
  let path := (breakAt pathStop np.2).1
  ⟨sp.1, np.1, path⟩

/-- CPython `urllib.parse._splitparams` applied to a path: drop a `;params`
suffix of the last path segment. -/
def splitparamsPath (path : Chars) : Chars :=
  if containsSub (';' :: []) path then
    if containsSub ('/' :: []) path then
      let br := breakAt (fun c => c == '/') path.reverse
      if containsSub (';' :: []) br.1.reverse then
        br.2.reverse ++ (breakAt (fun c => c == ';') br.1.reverse).1
      else path
    else (breakAt (fun c => c == ';') path).1
  else path

/-- CPython `urllib.parse.urlparse`, restricted to `scheme`/`netloc`/`path`. -/
def pyUrlparse (url : Chars) : UrlParts :=
  let sp := pyUrlsplit url
  ⟨sp.scheme, sp.netloc, splitparamsPath sp.path⟩

/-- CPython `SplitResult.hostname`: part of the netloc after the last `@`,
before the port, brackets unwrapped, lower-cased (zone id after `%` kept
as-is); `none` when empty. -/
def pyHostname (netloc : Chars) : Option Chars :=
  let hostinfo := afterLast '@' netloc
  let host :=
    if containsSub ('[' :: []) hostinfo then
      (breakAt (fun c => c == ']') ((breakAt (fun c => c == '[') hostinfo).2.drop 1)).1
    else (breakAt isColonChar hostinfo).1
  match host with
  | [] => none
  | _ =>
    match breakAt (fun c => c == '%') host with
    | (h, zone) => some (lowerL h ++ zone)

/-! ## RepoIndex.normalize_url (anvil.py lines 968-1006) -/

namespace RepoIndex

/-- The `git@host:path` rewrite (`url.split(':', 1)`, host after the first
`@`, reassembled as `https://host/path`; on a missing separator the
`ValueError`/`IndexError` handler leaves the URL unchanged). -/
def scpRewrite (url : Chars) : Chars :=
  match splitFirst ':' url with
  | none => url
  | some (userHost, p) =>
    match splitFirst '@' userHost with
    | none => url
    | some (_, host) => ('h' :: 't' :: 't' :: 'p' :: 's' :: ':' :: '/' :: '/' :: []) ++ host ++ '/' :: p

/-- The `ssh://` rewrite: parse, take `hostname or netloc` and the path,
reassemble as `https://{host}{path}`. -/
def sshRewrite (url : Chars) : Chars :=
  let parts := pyUrlparse url
  let host :=
    match pyHostname parts.netloc with
    | some h => h
    | none => parts.netloc
  ('h' :: 't' :: 't' :: 'p' :: 's' :: ':' :: '/' :: '/' :: []) ++ host ++ parts.path

/-- The http/https canonicalisation block: lower-case the netloc, strip
trailing slashes and one `.git` suffix from the path, reassemble as
`https://{host}{path}`; other schemes are left unchanged. -/
def httpCanon (url : Chars) : Chars :=
  let parts := pyUrlparse url
  if (parts.scheme == ('h' :: 't' :: 't' :: 'p' :: [])
       || parts.scheme == ('h' :: 't' :: 't' :: 'p' :: 's' :: []))
     && !(parts.netloc == []) then
    let host := lowerL parts.netloc
    let path := rstripSlash parts.path
    let path := if endsGit path then dropLast4 path else path
    ('h' :: 't' :: 't' :: 'p' :: 's' :: ':' :: '/' :: '/' :: []) ++ host ++ path
  else url

/-- `RepoIndex.normalize_url` on the character-list representation. -/
def normChars (url : Chars) : Chars :=
  if url == ([] : Chars) then url
  else
    let url := pyStrip url
    let url := if ('g' :: 'i' :: 't' :: '@' :: []).isPrefixOf url then scpRewrite url else url
    let url := if ('s' :: 's' :: 'h' :: ':' :: '/' :: '/' :: []).isPrefixOf url then sshRewrite url else url
    let url := httpCanon url
    let url := if url.getLast? == some '/' then url.dropLast else url
    lowerL url

/-- `RepoIndex.normalize_url` (anvil.py lines 968-1006). -/
def normalize_url (url : String) : String := String.mk (normChars url.data)

end RepoIndex

/-! ## RepoIndex store operations (anvil.py lines 940-966)

The sqlite table `repositories(name PRIMARY KEY, url, normalized_url,
description)` is modelled as a list of records scanned in order.  A sqlite
NULL is modelled as `""`, matching the Python truthiness guards
(`if row_norm and ...`) under which NULL and `''` behave identically. -/

namespace RepoIndex

structure RepoRecord where
  name : String
  url : String
  normalizedUrl : String
deriving DecidableEq, Repr

/-- `RepoIndex.has_url` (anvil.py lines 940-954): normalize the query and
scan every row, comparing the stored normalized value and a freshly
re-normalized form of the stored raw URL. -/
def has_url (store : List RepoRecord) (url : String) : Bool :=
  if url == "" then false
  else
    let normalized := normalize_url url
    store.any (fun r =>
      (!(r.normalizedUrl == "") && r.normalizedUrl == normalized)
      || (!(r.url == "") && normalize_url r.url == normalized))

/-- `RepoIndex.add_local` (anvil.py lines 956-966): reject an empty URL
(`ValueError`, modelled as `Except.error`), normalize, skip when
`has_url(normalized)` already holds, otherwise `INSERT OR REPLACE` keyed by
name (modelled as remove-same-name then append). -/
def add_local (store : List RepoRecord) (name url : String) :
    Except Unit (List RepoRecord) :=
  if url == "" then Except.error ()
  else
    let normalized := normalize_url url
    if has_url store normalized then Except.ok store
    else Except.ok ((store.filter (fun r => !(r.name == name))) ++ [⟨name, url, normalized⟩])

/-- Run a sequence of `add_local` operations; a raised `ValueError` aborts
the sequence, leaving the store as it was. -/
def add_local_seq (store : List RepoRecord) : List (String × String) → List RepoRecord
  | [] => store
  | (n, u) :: rest =>
    match add_local store n u with
    | Except.ok st => add_local_seq st rest
    | Except.error _ => store

/-- Boolean check that no two records carry byte-equal `normalizedUrl`. -/
def NoDupNormB : List RepoRecord → Bool
  | [] => true
  | r :: rest => rest.all (fun q => !(q.normalizedUrl == r.normalizedUrl)) && NoDupNormB rest

end RepoIndex

/-! ## safe_rmtree (anvil.py lines 355-389)

The filesystem is abstracted to a list of existing absolute paths
(`AbsPath`, a component list).  `Path.exists` and `Path.resolve` are OS
calls, passed in as functions; `shutil.rmtree` is modelled as removal of the
resolved path and everything below it (the retry/backoff loop around it does
not change which paths may be deleted). -/

abbrev AbsPath := List String

/-- `ANVIL_ROOT = HOME / ".anvil"` resolved. -/
def anvilRootPath (home : AbsPath) : AbsPath := home ++ [".anvil"]

/-- `Path('/')` resolved. -/
def rootPath : AbsPath := []

/-- `shutil.rmtree`: remove the target and every path below it. -/
def removeSubtree (st : List AbsPath) (r : AbsPath) : List AbsPath :=
  st.filter (fun q => !(r.isPrefixOf q))

inductive RmOutcome where
  | skippedMissing
  | refusedUnresolvable
  | refusedCritical
  | removed
deriving DecidableEq, Repr

/-- `safe_rmtree` (anvil.py lines 355-389): return when the path does not
exist; refuse (with a printed report) when resolution fails or the resolved
path is the Anvil root, the home directory, or the filesystem root;
otherwise remove the tree. -/
def safe_rmtree (home : AbsPath) (pathExistsF : AbsPath → Bool)
    (resolveF : AbsPath → Option AbsPath) (st : List AbsPath) (p : AbsPath) :
    List AbsPath × RmOutcome :=
  if pathExistsF p = false then (st, RmOutcome.skippedMissing)
  else
    match resolveF p with
    | none => (st, RmOutcome.refusedUnresolvable)
    | some r =>
      if r = anvilRootPath home ∨ r = home ∨ r = rootPath then (st, RmOutcome.refusedCritical)
      else (removeSubtree st r, RmOutcome.removed)

/-- The protected-path denylist (`dangerous_targets`). -/
def protectedPath (home : AbsPath) (r : AbsPath) : Prop :=
  r = anvilRootPath home ∨ r = home ∨ r = rootPath

instance (home r : AbsPath) : Decidable (protectedPath home r) := by
  unfold protectedPath; infer_instance

/-! ## AutoBuilder.detect (anvil.py lines 398-656)

The source directory is abstracted to the marker files `detect` probes.
File contents that `detect` reads are carried as `Except Unit String`
(`Except.error` = the read raised).  A malformed/unreadable `anvil.json`
is `some (Except.error ())`: `json.load`/`open` raise there with no handler,
so `detect` itself is `Except`-valued.  Step strings are reproduced exactly
(POSIX path joins). -/

namespace AutoBuilder

/-- Tool environment probed by `detect`: platform, `os.cpu_count()`,
the `shutil.which` make lookup chain, `sys.executable` and
`ANVIL_MSVC_RUNTIME`. -/
structure BuildEnv where
  osNt : Bool
  cpuCount : Option Nat
  makeBin : Option String
  sysExecutable : String
  anvilMsvcRuntime : String
deriving DecidableEq, Repr

/-- A build step: a shell command string or one of the native helper
callbacks of `AutoBuilder`. -/
inductive Step where
  | cmd (s : String)
  | copyBuildBins
  | copyCargoBins
  | copyCargoLibs
  | copyAll
  | copySwiftArtifacts
  | copyGradleArtifacts
  | copyBazelArtifacts
  | copyZigArtifacts
  | copyMavenArtifacts
deriving DecidableEq, Repr

/-- The metadata dict returned by `detect`: `{}` in every heuristic branch,
`{'msvc_runtime': ..., 'force_pic': ...}` in the manifest branch. -/
inductive Metadata where
  | empty
  | manifest (msvcRuntime : Option String) (forcePic : Option Bool)
deriving DecidableEq, Repr

/-- The fields of a parsed `anvil.json` that `detect` reads. -/
structure Manifest where
  buildCommon : List String
  binaries : List String
  buildDependencies : List String
  msvcRuntime : Option String
  forcePic : Option Bool
deriving DecidableEq, Repr

/-- A source directory as probed by `detect`. -/
structure SrcDir where
  anvilJson : Option (Except Unit Manifest)
  setupPy : Bool
  requirementsTxt : Bool
  configureScript : Bool
  makefileU : Option (Except Unit String)
  gnumakefile : Option (Except Unit String)
  makefileL : Option (Except Unit String)
  cmakeLists : Bool
  cargoToml : Option (Except Unit String)
  srcMainRs : Bool
  srcBinNonempty : Bool
  goMod : Bool
  mainGo : Bool
  cmdDirWithGo : Bool
  packageJson : Bool
  pyprojectToml : Bool
  buildNinja : Bool
  mesonBuild : Bool
  packageSwift : Bool
  sconstruct : Bool
  buildGradle : Bool
  gradlew : Bool
  bazelWorkspace : Bool
  bazelBuild : Bool
  buildZig : Bool
  zigToml : Bool
  pomXml : Bool
  hgDir : Bool
  svnDir : Bool
  topEntries : List String
  dirName : String
deriving Repr

/-- `_get_parallel_jobs`. -/
def get_parallel_jobs (env : BuildEnv) : String :=
  match env.cpuCount with
  | none => "1"
  | some n => if n < 1 then "1" else toString n

/-- Python `str.replace('\\', '/')` on a path string. -/
def backslashToSlash (s : String) : String :=
  String.mk (s.data.map (fun c => if c == '\\' then '/' else c))

def stripS (s : String) : String := String.mk (pyStrip s.data)

def upperS (s : String) : String := String.mk (upperL s.data)

/-- `*.ext` glob over the top-level directory listing. -/
def globExt (entries : List String) (ext : String) : List String :=
  entries.filter (fun n => pyEndsWith n ext)

/-- Scan of one makefile variant for an `install:` target; an unreadable or
absent file contributes nothing (the `except` clause). -/
def makefileHasInstall (f : Option (Except Unit String)) : Bool :=
  match f with
  | some (Except.ok content) =>
    containsSubS content ("\ninstall:") || pyStartsWith content ("install:")
  | _ => false

/-- `_has_cargo_binary`: `src/main.rs`, a populated `src/bin`, or an explicit
`[[bin]]` entry in a readable `Cargo.toml`. -/
def has_cargo_binary (d : SrcDir) : Bool :=
  d.srcMainRs || d.srcBinNonempty ||
    (match d.cargoToml with
     | some (Except.ok content) => containsSubS content ("[[bin]]")
     | _ => false)

def archiveExts : List String := [".tar.xz", ".7z", ".tar.bz2", ".tar.gz", ".tgz", ".tar", ".zip"]

/-- The archive-detection loop: first extension with a matching file wins. -/
def archivePlanAux (exts : List String) (entries : List String)
    (sourcePathStr installPath : String) : Option (List Step) :=
  match exts with
  | [] => none
  | ext :: rest =>
    match globExt entries ext with
    | [] => archivePlanAux rest entries sourcePathStr installPath
    | nm :: _ =>
      let filePath := sourcePathStr ++ "/" ++ nm
      if ext == ".zip" then some [Step.cmd ("unzip -o " ++ filePath ++ " -d " ++ installPath)]
      else some [Step.cmd ("tar -xf " ++ filePath ++ " -C " ++ installPath)]

/-- `AutoBuilder.detect` (anvil.py lines 407-656).  `Except.error` models an
exception escaping `detect` (only the `anvil.json` open/parse can raise:
that branch has no handler).  The `install_build_dependencies` side effect
does not affect the returned plan and is not modelled. -/
def detect (env : BuildEnv) (d : SrcDir) (sourcePathStr installPath : String) :
    Except Unit (List Step × List String × Metadata) :=
  match d.anvilJson with
  | some (Except.error _) => Except.error ()
  | some (Except.ok m) =>
    Except.ok (m.buildCommon.map Step.cmd, m.binaries,
               Metadata.manifest m.msvcRuntime m.forcePic)
  | none =>
  if d.setupPy then
    Except.ok ([Step.cmd (env.sysExecutable ++ " -m pip install . --target "
                          ++ installPath ++ " --upgrade")], [], Metadata.empty)
  else if d.requirementsTxt then
    Except.ok ([Step.cmd (env.sysExecutable ++ " -m pip install -r requirements.txt --target "
                          ++ installPath)], [], Metadata.empty)
  else if d.configureScript then
    let ip := backslashToSlash installPath
    Except.ok ([Step.cmd ("./configure --prefix=\"" ++ ip ++ "\""),
                Step.cmd ("make -j" ++ get_parallel_jobs env),
                Step.cmd ("make install")], [], Metadata.empty)
  else if d.makefileU.isSome || d.gnumakefile.isSome || d.makefileL.isSome then
    match env.makeBin with
    | none => Except.ok ([], [], Metadata.empty)
    | some mb =>
      let jobs := if containsSubS mb ("nmake") then "" else "-j" ++ get_parallel_jobs env
      let installTarget := makefileHasInstall d.makefileU || makefileHasInstall d.gnumakefile
                            || makefileHasInstall d.makefileL
      if installTarget then
        Except.ok ([Step.cmd (mb ++ " " ++ jobs),
                    Step.cmd (mb ++ " install PREFIX=\"" ++ installPath ++ "\""),
                    Step.cmd (mb ++ " install DESTDIR=\"" ++ installPath ++ "\"")],
                   [], Metadata.empty)
      else if d.goMod then
        Except.ok ([Step.cmd (mb ++ " " ++ jobs),
                    Step.cmd ("go build -o \"" ++ installPath ++ "/bin/" ++ d.dirName ++ "\" ./...")],
                   [d.dirName], Metadata.empty)
      else
        Except.ok ([Step.cmd (mb ++ " " ++ jobs), Step.copyBuildBins], [], Metadata.empty)
  else if d.cmakeLists then
    let cmakeArgs :=
      if env.osNt then
        let requested := upperS (stripS env.anvilMsvcRuntime)
        let cmakeFlag := if requested == "MT" then "MultiThreaded" else "MultiThreadedDLL"
        "-DCMAKE_INSTALL_PREFIX=" ++ installPath ++ " -DCMAKE_MSVC_RUNTIME_LIBRARY="
          ++ cmakeFlag ++ " -A x64"
      else "-DCMAKE_INSTALL_PREFIX=" ++ installPath
    Except.ok ([Step.cmd ("mkdir -p build"),
                Step.cmd ("cd build && cmake .. " ++ cmakeArgs),
                Step.cmd ("cd build && make -j" ++ get_parallel_jobs env),
                Step.cmd ("cd build && make install")], [], Metadata.empty)
  else if d.cargoToml.isSome then
    let isVirtualWorkspace :=
      match d.cargoToml with
      | some (Except.ok content) =>
        containsSubS content ("[workspace]") && !(containsSubS content ("[package]"))
      | _ => false
    if isVirtualWorkspace then
      Except.ok ([Step.cmd ("cargo build --release"), Step.copyCargoBins, Step.copyCargoLibs],
                 [], Metadata.empty)
    else if has_cargo_binary d then
      Except.ok ([Step.cmd ("cargo install --path . --root " ++ installPath)], [], Metadata.empty)
    else
      Except.ok ([Step.cmd ("cargo build --release"), Step.copyCargoLibs], [], Metadata.empty)
  else if d.goMod || d.mainGo || !(globExt d.topEntries (".go")).isEmpty then
    if d.mainGo || d.cmdDirWithGo then
      Except.ok ([Step.cmd ("go build -o \"" ++ installPath ++ "/bin/" ++ d.dirName ++ "\"")],
                 [d.dirName], Metadata.empty)
    else Except.ok ([], [], Metadata.empty)
  else if d.packageJson then
    Except.ok ([Step.cmd ("npm install"), Step.cmd ("npm run build || true")], [], Metadata.empty)
  else if d.pyprojectToml then
    Except.ok ([Step.cmd (env.sysExecutable ++ " -m pip install . --target "
                          ++ installPath ++ " --upgrade")], [], Metadata.empty)
  else if d.buildNinja then
    Except.ok ([Step.cmd ("ninja -j" ++ get_parallel_jobs env),
                Step.cmd ("ninja install || true")], [], Metadata.empty)
  else if d.mesonBuild then
    Except.ok ([Step.cmd ("meson setup build"),
                Step.cmd ("ninja -C build"),
                Step.cmd ("ninja -C build install --destdir=" ++ installPath ++ " || true")],
               [], Metadata.empty)
  else if !(globExt d.topEntries (".gemspec")).isEmpty then
    let gemName := (globExt d.topEntries (".gemspec")).headD ""
    Except.ok ([Step.cmd ("gem build " ++ gemName),
                Step.cmd ("gem install *.gem --install-dir " ++ installPath
                          ++ " --bindir " ++ installPath ++ "/bin --no-document")],
               [], Metadata.empty)
  else if d.packageSwift then
    Except.ok ([Step.cmd ("swift build -c release"), Step.copySwiftArtifacts], [], Metadata.empty)
  else if d.sconstruct then
    Except.ok ([Step.cmd ("scons PREFIX=" ++ installPath),
                Step.cmd ("scons install PREFIX=" ++ installPath ++ " || true")],
               [], Metadata.empty)
  else if d.buildGradle || d.gradlew then
    let gradleCmd := if d.gradlew then "./gradlew" else "gradle"
    Except.ok ([Step.cmd (gradleCmd ++ " build"), Step.copyGradleArtifacts], [], Metadata.empty)
  else if d.bazelWorkspace || d.bazelBuild then
    Except.ok ([Step.cmd ("bazel build //..."), Step.copyBazelArtifacts], [], Metadata.empty)
  else if !(globExt d.topEntries (".csproj")).isEmpty then
    Except.ok ([Step.cmd ("dotnet publish -c Release -o " ++ installPath)], [], Metadata.empty)
  else if d.buildZig || d.zigToml then
    Except.ok ([Step.cmd ("zig build -Drelease-safe"), Step.copyZigArtifacts], [], Metadata.empty)
  else if d.pomXml then
    Except.ok ([Step.cmd ("mvn package"), Step.copyMavenArtifacts], [], Metadata.empty)
  else
    match archivePlanAux archiveExts d.topEntries sourcePathStr installPath with
    | some steps => Except.ok (steps, [], Metadata.empty)
    | none =>
      if d.hgDir then Except.ok ([Step.cmd ("hg pull"), Step.cmd ("hg update")], [], Metadata.empty)
      else if d.svnDir then Except.ok ([Step.cmd ("svn update")], [], Metadata.empty)
      else Except.ok ([Step.copyAll], [], Metadata.empty)

end AutoBuilder

/-! ## Anvil: forge step rendering, binary linking, housekeeping -/

/-- The central registry URL (anvil.py line 36). -/
def INDEX_REPO_URL : String := "https://github.com/sycomix/Anvil_Index.git"

namespace Anvil

/-- Placeholder substitution applied to each shell step in `forge`
(anvil.py lines 1200-1203): backslashes of the install path are turned into
forward slashes and `{PREFIX}` is replaced by it. -/
def render_step (installPath : String) (step : String) : String :=
  pyReplace step ("{PREFIX}") (AutoBuilder.backslashToSlash installPath)

/-- An entry of the install tree as seen by `_link_binaries`: its path
relative to the install prefix, whether it is a regular file, and whether
the executable bit is set (`os.access(f, os.X_OK)`). -/
structure InstEntry where
  relPath : List String
  isFile : Bool
  executable : Bool
deriving DecidableEq, Repr

def entryName (f : InstEntry) : String := f.relPath.getLastD ""

/-- The `f.suffix in ['.exe', '.bat', '.py', '.sh']` check. -/
def scriptSuffix (n : String) : Bool :=
  let sfx := String.mk (pySuffixChars n.data)
  sfx == ".exe" || sfx == ".bat" || sfx == ".py" || sfx == ".sh"

/-- Entry sits directly in `install_path` or `install_path/bin`
(the two folders scanned non-recursively). -/
def inTopOrBin (f : InstEntry) : Bool :=
  match f.relPath with
  | [_] => true
  | ["bin", _] => true
  | _ => false

/-- `Anvil._link_binaries` (anvil.py lines 1239-1282), as a function from the
published-bin-directory contents to the contents after the call.  Candidates
are the executable/suffix-matching entries of the prefix and its `bin`
folder plus every file whose stem matches an explicit binary name,
deduplicated (`set(candidates)`).  For each non-hidden candidate the
pre-existing destination is unlinked; then only on Windows (`os.name ==
'nt'`) a `<name>.bat` forwarding shim is written — the source has no branch
creating anything on other platforms.  Writing an existing shim overwrites
it, hence the insert-if-absent. -/
def link_binaries (osNt : Bool) (binDir0 : List String) (entries : List InstEntry)
    (explicitBinaries : List String) : List String :=
  let cands1 := entries.filter (fun f =>
    inTopOrBin f && ((f.isFile && f.executable) || scriptSuffix (entryName f)))
  let cands2 := (explicitBinaries.map (fun b =>
    entries.filter (fun f => f.isFile && pyStemS (entryName f) == b))).flatten
  let cands := (cands1 ++ cands2).eraseDups
  cands.foldl (fun bin f =>
    let nm := entryName f
    if pyStartsWith nm (".") then bin
    else
      let bin := bin.filter (fun dst => !(dst == nm))
      if osNt then
        if bin.contains (nm ++ ".bat") then bin else bin ++ [nm ++ ".bat"]
      else bin) binDir0

/-- One child of the build directory (`BUILD_DIR.iterdir()`). -/
structure BuildEntry where
  name : String
  isDir : Bool
deriving DecidableEq, Repr

/-- The build directory: whether it exists and its children. -/
structure BuildState where
  buildDirPresent : Bool
  entries : List BuildEntry
deriving DecidableEq, Repr

/-- Resolved path of a build-directory child
(`BUILD_DIR = HOME/.anvil/build`); the ideal-filesystem model resolves real
files and subdirectories to themselves. -/
def buildChildPath (home : AbsPath) (name : String) : AbsPath :=
  home ++ [".anvil", "build", name]

/-- First half of `Anvil.housekeeping` (anvil.py lines 1054-1064): clear the
children of the build directory — directories through `safe_rmtree` (whose
guard may refuse), files through `unlink` — but never the directory itself.
A child survives exactly when it is a directory that `safe_rmtree` refused
to remove. -/
def housekeeping_build (home : AbsPath) (st : BuildState) : BuildState :=
  if st.buildDirPresent then
    ⟨true, st.entries.filter (fun e =>
      if e.isDir then
        !((safe_rmtree home (fun _ => true) (fun q => some q) [] (buildChildPath home e.name)).2
            == RmOutcome.removed)
      else false)⟩
  else st

/-- One entry of the shared bin directory (`BIN_DIR.iterdir()`). -/
structure BinEntry where
  name : String
  isFile : Bool
deriving DecidableEq, Repr

/-- `installed = {p.name for p in INSTALL_DIR.iterdir() if p.is_dir()}`. -/
def installedNames (installEntries : List (String × Bool)) : List String :=
  (installEntries.filter (fun e => e.2)).map (fun e => e.1)

/-- Second half of `Anvil.housekeeping` (anvil.py lines 1066-1081): for every
regular file in the bin directory whose stem is not the name of an installed
package directory, unlink it; everything else stays. -/
def housekeeping_bins (installEntries : List (String × Bool)) (binDirPresent : Bool)
    (bins : List BinEntry) : List BinEntry :=
  let installed := installedNames installEntries
  if binDirPresent then
    bins.filter (fun b => !b.isFile || installed.contains (pyStemS b.name))
  else bins

end Anvil

/-! ## RepoIndex.check / RepoIndex.repair (spec-modelled) -/

namespace RepoIndex

/-- State of the index directory as probed by `check`/`repair`. -/
inductive GitMarker where
  | missing
  | plainFile
  | directory
deriving DecidableEq, Repr

/-- Modelled from the spec: the index-directory state inspected by the
missing `RepoIndex.check`/`RepoIndex.repair` (referenced by
`tests/test_repoindex_repair.py` and `tests/test_cli_index.py` but absent
from `src/anvil.py`): the `.git` marker, stray top-level entries, and
readability of the repo state. -/
structure IndexDirState where
  gitMarker : GitMarker
  strayTopLevel : List String
  repoReadable : Bool
deriving DecidableEq, Repr

/-- Modelled from the spec: `RepoIndex.check` is missing from `src/anvil.py`
(only its tests reference it).  Per spec section 4.6 it detects a `.git`
marker that is a plain file rather than a directory, unexpected stray
top-level entries, and an unreadable repo state, returning `(ok, issues)`
with every finding reported. -/
def check (st : IndexDirState) : Bool × List String :=
  let issues :=
    (match st.gitMarker with
     | GitMarker.plainFile => [".git marker is a plain file, not a directory"]
     | GitMarker.missing => [".git directory is missing"]
     | GitMarker.directory => [])
    ++ (if st.strayTopLevel.isEmpty then [] else ["Unexpected top-level entries in index directory"])
    ++ (if st.repoReadable then [] else ["repository state is unreadable"])
  (issues.isEmpty, issues)

/-- The index-directory state produced by a fresh clone of the registry. -/
def indexCloneState : IndexDirState := ⟨GitMarker.directory, [], true⟩

/-- Modelled from the spec: `RepoIndex.repair` is missing from
`src/anvil.py` (only its tests reference it).  It re-clones the index from
the canonical source `INDEX_REPO_URL` and reports everything `check`
found - corruption is never fixed silently.  The result carries the new
state, the report, and the clone command issued. -/
def repair (st : IndexDirState) : IndexDirState × List String × String :=
  let c := check st
  (indexCloneState, c.2, "git clone " ++ INDEX_REPO_URL ++ " .")

/-- An invalid checkout in the sense of spec section 4.6. -/
def invalidIndex (st : IndexDirState) : Prop :=
  st.gitMarker ≠ GitMarker.directory ∨ st.strayTopLevel ≠ [] ∨ st.repoReadable = false

instance (st : IndexDirState) : Decidable (invalidIndex st) := by
  unfold invalidIndex; infer_instance

end RepoIndex

/-! ## URL renderings for the normalization claim

`renderUrl` produces the URL strings that "denote the same repository"
in the sense of the claim: one repository `host/path`, written in SCP-style
(`git@host:path`), `ssh://host/path` or `https://host/path` form, with an
optional `.git` suffix, an optional trailing slash, surrounding whitespace,
and any letter-case of the host. -/

inductive UrlForm where
  | scp
  | ssh
  | https
deriving DecidableEq, Repr

def gitSuffix (g : Bool) : Chars := if g then '.' :: 'g' :: 'i' :: 't' :: [] else []

def slashSuffix (s : Bool) : Chars := if s then '/' :: [] else []

def renderChars (f : UrlForm) (host path : Chars) (g s : Bool) : Chars :=
  match f with
  | UrlForm.scp => 'g' :: 'i' :: 't' :: '@' :: (host ++ ':' :: (path ++ gitSuffix g ++ slashSuffix s))
  | UrlForm.ssh => 's' :: 's' :: 'h' :: ':' :: '/' :: '/' :: (host ++ '/' :: (path ++ gitSuffix g ++ slashSuffix s))
  | UrlForm.https => 'h' :: 't' :: 't' :: 'p' :: 's' :: ':' :: '/' :: '/' :: (host ++ '/' :: (path ++ gitSuffix g ++ slashSuffix s))

def renderUrl (f : UrlForm) (host path : Chars) (g s : Bool) (w1 w2 : Chars) : String :=
  String.mk (w1 ++ renderChars f host path g s ++ w2)

/-- Characters a well-formed host (and path segment) is built from. -/
def urlSafeChar (c : Char) : Bool :=
  c.isAlpha || c.isDigit || c == '.' || c == '-' || c == '_'

def pathChar (c : Char) : Bool := urlSafeChar c || c == '/'

/-- A well-formed host: nonempty, made of letters, digits, dots, dashes,
underscores. -/
def HostOk (h : Chars) : Prop := h ≠ [] ∧ h.all urlSafeChar = true

/-- A well-formed repository path: nonempty, made of safe characters and
inner slashes, neither starting nor ending with a slash, and not already
ending in `.git`. -/
def PathOk (p : Chars) : Prop :=
  p ≠ [] ∧ p.all pathChar = true ∧ p.head? ≠ some '/' ∧ p.getLast? ≠ some '/'
    ∧ endsGit ('/' :: p) = false

def AllSpace (w : Chars) : Prop := w.all isPySpace = true

instance (h : Chars) : Decidable (HostOk h) := by unfold HostOk; infer_instance

instance (p : Chars) : Decidable (PathOk p) := by unfold PathOk; infer_instance

instance (w : Chars) : Decidable (AllSpace w) := by unfold AllSpace; infer_instance

/-! ## Concrete scenario directories and environments -/

namespace AutoBuilder

/-- A source directory with none of the markers `detect` probes. -/
def emptySrcDir : SrcDir :=
  { anvilJson := none, setupPy := false, requirementsTxt := false, configureScript := false,
    makefileU := none, gnumakefile := none, makefileL := none, cmakeLists := false,
    cargoToml := none, srcMainRs := false, srcBinNonempty := false, goMod := false,
    mainGo := false, cmdDirWithGo := false, packageJson := false, pyprojectToml := false,
    buildNinja := false, mesonBuild := false, packageSwift := false, sconstruct := false,
    buildGradle := false, gradlew := false, bazelWorkspace := false, bazelBuild := false,
    buildZig := false, zigToml := false, pomXml := false, hgDir := false, svnDir := false,
    topEntries := [], dirName := "src" }

/-- A directory holding a malformed `anvil.json` next to a readable
`Makefile` without an `install:` target. -/
def malformedManifestMakefileDir : SrcDir :=
  { emptySrcDir with
    anvilJson := some (Except.error ()),
    makefileU := some (Except.ok ("all:\n\tcc -o x main.c\n")) }

/-- The forge-scenario manifest: name `x`, binaries `[x]`, one common build
step that writes `bin/x` under the prefix. -/
def scenarioManifest : Manifest :=
  { buildCommon := ["touch {PREFIX}/bin/x"], binaries := ["x"],
    buildDependencies := [], msvcRuntime := none, forcePic := none }

/-- A directory containing only that manifest. -/
def scenarioManifestDir : SrcDir :=
  { emptySrcDir with anvilJson := some (Except.ok scenarioManifest) }

/-- A Cargo virtual-workspace directory: a `Cargo.toml` with a `[workspace]`
section and no `[package]` section, and no higher-priority marker. -/
def cargoWorkspaceDir : SrcDir :=
  { emptySrcDir with cargoToml := some (Except.ok ("[workspace]\nmembers = [\"core\"]\n")) }

/-- A plain POSIX tool environment. -/
def posixEnv : BuildEnv :=
  { osNt := false, cpuCount := some 4, makeBin := some ("make"),
    sysExecutable := "python3", anvilMsvcRuntime := "" }

end AutoBuilder

/-! ## Helper lemmas -/

theorem buildChild_not_protected (home : AbsPath) (n : String) :
    ¬ protectedPath home (Anvil.buildChildPath home n) := by
  intro h
  rcases h with h | h | h
  · have hl := congrArg List.length h
    simp [Anvil.buildChildPath, anvilRootPath] at hl
  · have hl := congrArg List.length h
    simp [Anvil.buildChildPath] at hl
  · have hl := congrArg List.length h
    simp [Anvil.buildChildPath, rootPath] at hl

/-! ## C2: the safe_rmtree guard -/

/-- C2 (amended): for every existing path whose resolution fails or lands on
a protected path (the Anvil root, the home directory, or the filesystem
root), `safe_rmtree` refuses with a reported refusal outcome and leaves the
state unchanged; removal only ever happens for a resolvable, non-protected
target; and whenever the outcome is not `removed` the state is unchanged.
(A nonexistent protected path returns silently - see the counterexample.) -/
theorem safe_rmtree_guard_behavior (home : AbsPath) (pathExistsF : AbsPath → Bool)
    (resolveF : AbsPath → Option AbsPath) (st : List AbsPath) (p : AbsPath) :
    (pathExistsF p = true → resolveF p = none →
       safe_rmtree home pathExistsF resolveF st p = (st, RmOutcome.refusedUnresolvable))
  ∧ (pathExistsF p = true → ∀ r, resolveF p = some r → protectedPath home r →
       safe_rmtree home pathExistsF resolveF st p = (st, RmOutcome.refusedCritical))
  ∧ ((safe_rmtree home pathExistsF resolveF st p).2 = RmOutcome.removed →
       ∃ r, resolveF p = some r ∧ ¬ protectedPath home r)
  ∧ ((safe_rmtree home pathExistsF resolveF st p).2 ≠ RmOutcome.removed →
       (safe_rmtree home pathExistsF resolveF st p).1 = st) := by
  refine ⟨?_, ?_, ?_, ?_⟩
  · intro he hr
    simp [safe_rmtree, he, hr]
  · intro he r hr hprot
    have hprot' : r = anvilRootPath home ∨ r = home ∨ r = rootPath := hprot
    simp [safe_rmtree, he, hr, hprot']
  · intro hrem
    cases hex : pathExistsF p with
    | false => simp [safe_rmtree, hex] at hrem
    | true =>
      cases hres : resolveF p with
      | none => simp [safe_rmtree, hex, hres] at hrem
      | some r =>
        by_cases hp : r = anvilRootPath home ∨ r = home ∨ r = rootPath
        · simp [safe_rmtree, hex, hres, hp] at hrem
        · exact ⟨r, rfl, hp⟩
  · intro hrem
    cases hex : pathExistsF p with
    | false => simp [safe_rmtree, hex]
    | true =>
      cases hres : resolveF p with
      | none => simp [safe_rmtree, hex, hres]
      | some r =>
        by_cases hp : r = anvilRootPath home ∨ r = home ∨ r = rootPath
        · simp [safe_rmtree, hex, hres, hp]
        · exfalso
          exact hrem (by simp [safe_rmtree, hex, hres, hp])

/-- C2 witness: concrete protected target (the home directory itself, which
exists) is refused and left in place. -/
theorem safe_rmtree_guard_behavior_witness :
    safe_rmtree (["home", "u"]) (fun _ => true) (fun q => some q)
        ([["home", "u"], ["home", "u", "f"]]) (["home", "u"])
      = (([["home", "u"], ["home", "u", "f"]]), RmOutcome.refusedCritical) :=
  (safe_rmtree_guard_behavior (["home", "u"]) (fun _ => true) (fun q => some q)
      ([["home", "u"], ["home", "u", "f"]]) (["home", "u"])).2.1 rfl (["home", "u"]) rfl
    (Or.inr (Or.inl rfl))

/-- C2 counterexample to the claim as stated: a protected path (the Anvil
root, here nonexistent on a fresh machine) makes `safe_rmtree` return
silently - nothing is deleted, but no refusal is reported, against the
claim's "reports the refusal" for every such path. -/
theorem safe_rmtree_missing_protected_counterexample :
    safe_rmtree (["home", "u"]) (fun _ => false) (fun q => some q)
        ([["home", "u"]]) (["home", "u", ".anvil"])
      = (([["home", "u"]]), RmOutcome.skippedMissing)
  ∧ (RmOutcome.skippedMissing == RmOutcome.refusedCritical) = false
  ∧ (RmOutcome.skippedMissing == RmOutcome.refusedUnresolvable) = false :=
  ⟨rfl, rfl, rfl⟩

/-! ## C6: a malformed manifest is fatal, not treated as absent -/

/-- C6 (amended): for every source directory whose `anvil.json` is
unreadable or malformed, `AutoBuilder.detect` propagates the exception
(`json.load`/`open` raise inside a branch with no handler): the manifest is
not treated as absent, and detection does not fall through to the next
rule. -/
theorem AutoBuilder.detect_manifest_error_propagates (env : AutoBuilder.BuildEnv)
    (d : AutoBuilder.SrcDir) (sp ip : String)
    (h : d.anvilJson = some (Except.error ())) :
    AutoBuilder.detect env d sp ip = Except.error () := by
  unfold AutoBuilder.detect
  rw [h]

/-- C6 witness for the amended claim. -/
theorem AutoBuilder.detect_manifest_error_propagates_witness :
    AutoBuilder.detect AutoBuilder.posixEnv AutoBuilder.malformedManifestMakefileDir
      ("/b") ("/p") = Except.error () :=
  AutoBuilder.detect_manifest_error_propagates AutoBuilder.posixEnv
    AutoBuilder.malformedManifestMakefileDir ("/b") ("/p") rfl

/-- C6 counterexample to the claim as stated: with a malformed `anvil.json`
next to a Makefile, `detect` raises (`Except.error`) instead of returning
the Makefile plan; the second conjunct shows the plan the claimed
fall-through would have produced (obtained when the manifest is absent). -/
theorem AutoBuilder.detect_malformed_manifest_counterexample :
    AutoBuilder.detect AutoBuilder.posixEnv AutoBuilder.malformedManifestMakefileDir ("/b") ("/p")
      = Except.error ()
  ∧ AutoBuilder.detect AutoBuilder.posixEnv
      { AutoBuilder.malformedManifestMakefileDir with anvilJson := none } ("/b") ("/p")
      = Except.ok ([AutoBuilder.Step.cmd ("make -j4"), AutoBuilder.Step.copyBuildBins], [],
                   AutoBuilder.Metadata.empty) :=
  ⟨rfl, rfl⟩

/-! ## C7: Cargo virtual workspaces -/

/-- Helper: the single-package `cargo install` step differs from the
workspace build step. -/
theorem cargo_install_ne_build (ip : String) :
    AutoBuilder.Step.cmd ("cargo install --path . --root " ++ ip)
      ≠ AutoBuilder.Step.cmd ("cargo build --release") := by
  intro he
  injection he with hs
  have hd := congrArg String.data hs
  rw [String.data_append] at hd
  have h6 : ("cargo install --path . --root ".data ++ ip.data)[6]?
      = ("cargo build --release".data)[6]? := by rw [hd]
  rw [List.getElem?_append_left (by decide)] at h6
  exact absurd h6 (by decide)

/-- C7: a source directory whose `Cargo.toml` declares `[workspace]` and no
`[package]` (and no higher-priority marker is present, so the Cargo rule of
the first-match-wins priority list is reached) is detected as a virtual
workspace: `cargo build --release` followed by the copy-binaries and
copy-libraries native steps, and no single-package `cargo install` step. -/
theorem AutoBuilder.detect_cargo_virtual_workspace (env : AutoBuilder.BuildEnv)
    (d : AutoBuilder.SrcDir) (sp ip : String) (content : String)
    (h0 : d.anvilJson = none) (h1 : d.setupPy = false) (h2 : d.requirementsTxt = false)
    (h3 : d.configureScript = false) (h4 : d.makefileU = none) (h5 : d.gnumakefile = none)
    (h6 : d.makefileL = none) (h7 : d.cmakeLists = false)
    (h8 : d.cargoToml = some (Except.ok content))
    (h9 : containsSubS content ("[workspace]") = true)
    (h10 : containsSubS content ("[package]") = false) :
    AutoBuilder.detect env d sp ip
      = Except.ok ([AutoBuilder.Step.cmd ("cargo build --release"),
                    AutoBuilder.Step.copyCargoBins, AutoBuilder.Step.copyCargoLibs],
                   [], AutoBuilder.Metadata.empty)
  ∧ AutoBuilder.Step.cmd ("cargo install --path . --root " ++ ip)
      ∉ ([AutoBuilder.Step.cmd ("cargo build --release"),
          AutoBuilder.Step.copyCargoBins, AutoBuilder.Step.copyCargoLibs]) := by
  constructor
  · unfold AutoBuilder.detect
    rw [h0]
    simp [h1, h2, h3, h4, h5, h6, h7, h8, h9, h10]
  · intro hmem
    rcases List.mem_cons.mp hmem with he | hmem2
    · exact cargo_install_ne_build ip he
    · rcases List.mem_cons.mp hmem2 with he | hmem3
      · exact AutoBuilder.Step.noConfusion he
      · rcases List.mem_cons.mp hmem3 with he | h4
        · exact AutoBuilder.Step.noConfusion he
        · exact List.not_mem_nil _ h4

/-- C7 witness: a concrete workspace directory. -/
theorem AutoBuilder.detect_cargo_virtual_workspace_witness :
    AutoBuilder.detect AutoBuilder.posixEnv AutoBuilder.cargoWorkspaceDir ("/b") ("/p")
      = Except.ok ([AutoBuilder.Step.cmd ("cargo build --release"),
                    AutoBuilder.Step.copyCargoBins, AutoBuilder.Step.copyCargoLibs],
                   [], AutoBuilder.Metadata.empty)
  ∧ AutoBuilder.Step.cmd ("cargo install --path . --root " ++ "/p")
      ∉ ([AutoBuilder.Step.cmd ("cargo build --release"),
          AutoBuilder.Step.copyCargoBins, AutoBuilder.Step.copyCargoLibs]) :=
  AutoBuilder.detect_cargo_virtual_workspace AutoBuilder.posixEnv AutoBuilder.cargoWorkspaceDir
    ("/b") ("/p") ("[workspace]\nmembers = [\"core\"]\n")
    rfl rfl rfl rfl rfl rfl rfl rfl rfl (by decide) (by decide)

/-! ## C8: index check and repair (spec-modelled) -/

/-- C8: for every index-directory state that is an invalid checkout (a
`.git` marker that is not a directory, stray top-level entries, or an
unreadable repo state), `check` returns not-ok with a nonempty report, and
`repair` re-clones from the canonical source `INDEX_REPO_URL` while
reporting exactly what `check` found - corruption is never fixed silently. -/
theorem RepoIndex.check_repair_report (st : RepoIndex.IndexDirState)
    (h : RepoIndex.invalidIndex st) :
    (RepoIndex.check st).1 = false
  ∧ (RepoIndex.check st).2 ≠ []
  ∧ (RepoIndex.repair st).1 = RepoIndex.indexCloneState
  ∧ (RepoIndex.repair st).2.1 = (RepoIndex.check st).2
  ∧ (RepoIndex.repair st).2.2 = "git clone " ++ INDEX_REPO_URL ++ " ." := by
  obtain ⟨gm, stray, rr⟩ := st
  refine ⟨?_, ?_, rfl, rfl, rfl⟩ <;>
    cases gm <;> rcases stray with _ | ⟨s0, stray⟩ <;> cases rr <;>
      simp_all [RepoIndex.check, RepoIndex.invalidIndex]

/-- C8 witness: the corrupt state from the repair tests (missing `.git`,
stray `index.db`). -/
theorem RepoIndex.check_repair_report_witness :
    (RepoIndex.check (⟨RepoIndex.GitMarker.missing, ["index.db"], true⟩)).1 = false
  ∧ (RepoIndex.check (⟨RepoIndex.GitMarker.missing, ["index.db"], true⟩)).2 ≠ []
  ∧ (RepoIndex.repair (⟨RepoIndex.GitMarker.missing, ["index.db"], true⟩)).1
      = RepoIndex.indexCloneState
  ∧ (RepoIndex.repair (⟨RepoIndex.GitMarker.missing, ["index.db"], true⟩)).2.1
      = (RepoIndex.check (⟨RepoIndex.GitMarker.missing, ["index.db"], true⟩)).2
  ∧ (RepoIndex.repair (⟨RepoIndex.GitMarker.missing, ["index.db"], true⟩)).2.2
      = "git clone " ++ INDEX_REPO_URL ++ " ." :=
  RepoIndex.check_repair_report (⟨RepoIndex.GitMarker.missing, ["index.db"], true⟩)
    (Or.inl (by decide))

/-! ## C9: housekeeping clears the build directory but keeps it -/

/-- C9: running the build-directory half of housekeeping on an existing
build directory with any children (files and subdirectories alike, resolved
to themselves) removes every child, while the build directory itself still
exists afterwards. -/
theorem Anvil.housekeeping_clears_build_keeps_root (home : AbsPath)
    (entries : List Anvil.BuildEntry) :
    Anvil.housekeeping_build home (⟨true, entries⟩) = (⟨true, []⟩) := by
  unfold Anvil.housekeeping_build
  simp only [if_pos]
  refine congrArg (fun l => Anvil.BuildState.mk true l) ?_
  rw [List.filter_eq_nil_iff]
  intro e _
  cases hd : e.isDir with
  | false => simp [hd]
  | true =>
    simp only [hd, if_true]
    have hnp : ¬(Anvil.buildChildPath home e.name = anvilRootPath home
        ∨ Anvil.buildChildPath home e.name = home
        ∨ Anvil.buildChildPath home e.name = rootPath) :=
      buildChild_not_protected home e.name
    have hrm : (safe_rmtree home (fun _ => true) (fun q => some q) []
        (Anvil.buildChildPath home e.name)).2 = RmOutcome.removed := by
      simp [safe_rmtree, hnp]
    simp [hrm]

/-! ## C10: housekeeping unlinks orphaned bin files, keeps matching ones -/

/-- C10: for every regular file in the bin directory, housekeeping keeps it
exactly when its Python-pathlib stem is the name of some directory under the
install root; every other regular file (including ones the user placed
there) is unlinked. -/
theorem Anvil.housekeeping_bins_orphans (installEntries : List (String × Bool))
    (bins : List Anvil.BinEntry) (b : Anvil.BinEntry)
    (hb : b ∈ bins) (hf : b.isFile = true) :
    b ∈ Anvil.housekeeping_bins installEntries true bins
      ↔ (Anvil.installedNames installEntries).contains (pyStemS b.name) = true := by
  unfold Anvil.housekeeping_bins
  simp [List.mem_filter, hb, hf]

/-- C10 witness: `pkg1` (installed) is kept, and the orphan check is what
decides it. -/
theorem Anvil.housekeeping_bins_orphans_witness :
    ((⟨"oldbin", true⟩ : Anvil.BinEntry)
        ∈ Anvil.housekeeping_bins ([("pkg1", true)]) true
            ([⟨"pkg1", true⟩, ⟨"oldbin", true⟩])
      ↔ (Anvil.installedNames ([("pkg1", true)])).contains (pyStemS "oldbin") = true) :=
  Anvil.housekeeping_bins_orphans ([("pkg1", true)]) ([⟨"pkg1", true⟩, ⟨"oldbin", true⟩])
    (⟨"oldbin", true⟩) (by decide) rfl

/-! ## C3: the forge scenario publishes no entry point on POSIX -/

/-- C3 (code bug evaluation): forging a directory containing only the
manifest `name x / binaries [x] / one common step writing bin/x` does return
that step and binary list from `detect`, and `forge` does substitute
`{PREFIX}` with the resolved install path, so `opt/x/bin/x` is produced; but
on POSIX (`os.name != 'nt'`) `_link_binaries` publishes nothing into the
shared bin directory - the linking loop only writes a `.bat` forwarding
shim on Windows and has no branch for other platforms (the final conjunct
shows the Windows run for contrast). -/
theorem Anvil.forge_manifest_scenario_posix_eval :
    AutoBuilder.detect AutoBuilder.posixEnv AutoBuilder.scenarioManifestDir
        ("/root/.anvil/build/x") ("/root/.anvil/opt/x")
      = Except.ok ([AutoBuilder.Step.cmd ("touch {PREFIX}/bin/x")], ["x"],
                   AutoBuilder.Metadata.manifest none none)
  ∧ Anvil.render_step ("/root/.anvil/opt/x") ("touch {PREFIX}/bin/x")
      = "touch /root/.anvil/opt/x/bin/x"
  ∧ Anvil.link_binaries false [] ([⟨["bin", "x"], true, true⟩]) (["x"]) = []
  ∧ Anvil.link_binaries true [] ([⟨["bin", "x"], true, true⟩]) (["x"]) = ["x.bat"] :=
  ⟨rfl, rfl, rfl, rfl⟩

/-! ## C4 and C5: add_local / has_url -/

/-- `has_url` on a nonempty query is the row scan. -/
theorem RepoIndex.has_url_eq_any {store : List RepoIndex.RepoRecord} {q : String}
    (hq : q ≠ "") :
    RepoIndex.has_url store q
      = store.any (fun r =>
          (!(r.normalizedUrl == "") && r.normalizedUrl == RepoIndex.normalize_url q)
          || (!(r.url == "") && RepoIndex.normalize_url r.url == RepoIndex.normalize_url q)) := by
  simp [RepoIndex.has_url, beq_false_of_ne hq]

/-- C4 (amended): immediately after `add_local(name, u)` returns, `has_url`
answers `true` for `u` and for every `v` with the same normalized form -
provided `normalize_url` is idempotent at `u` (true of every well-formed
SCP/ssh/https URL; `add_local` checks `has_url` against the doubly
normalized URL, so non-idempotent inputs such as `"GIT@h:p"` can be skipped
without being findable - see the counterexample). -/
theorem RepoIndex.has_url_after_add_local (store store' : List RepoIndex.RepoRecord)
    (name u v : String)
    (hv : RepoIndex.normalize_url v = RepoIndex.normalize_url u)
    (hvne : v ≠ "")
    (hidem : RepoIndex.normalize_url (RepoIndex.normalize_url u) = RepoIndex.normalize_url u)
    (hadd : RepoIndex.add_local store name u = Except.ok store') :
    RepoIndex.has_url store' v = true := by
  simp only [RepoIndex.add_local] at hadd
  split at hadd
  · exact Except.noConfusion hadd
  · rename_i hub
    have hub' : (u == "") = false := by revert hub; cases (u == "") <;> simp
    split at hadd
    · rename_i hhas
      injection hadd with hst
      subst hst
      by_cases hq0 : RepoIndex.normalize_url u = ""
      · rw [hq0] at hhas
        simp [RepoIndex.has_url] at hhas
      · rw [RepoIndex.has_url_eq_any hq0, hidem] at hhas
        rw [RepoIndex.has_url_eq_any hvne, hv]
        exact hhas
    · injection hadd with hst
      subst hst
      rw [RepoIndex.has_url_eq_any hvne, hv]
      rw [List.any_append]
      simp [hub']

/-- C4 witness: the repo's own test case (`katana` over SCP and https). -/
theorem RepoIndex.has_url_after_add_local_witness :
    RepoIndex.has_url
        ([⟨"katana", "git@github.com:projectdiscovery/katana.git", "https://github.com/projectdiscovery/katana"⟩])
        ("https://github.com/projectdiscovery/katana") = true :=
  RepoIndex.has_url_after_add_local []
    ([⟨"katana", "git@github.com:projectdiscovery/katana.git", "https://github.com/projectdiscovery/katana"⟩])
    ("katana") ("git@github.com:projectdiscovery/katana.git")
    ("https://github.com/projectdiscovery/katana")
    (by decide) (by decide) (by decide) rfl

/-- C4 counterexample to the claim as stated: with a store already holding
`https://h/p`, calling `add_local("x", "GIT@h:p")` returns without
inserting (its existence check double-normalizes `"GIT@h:p"` to
`"https://h/p"` and matches), yet `has_url("GIT@h:p")` - which normalizes
only once, to `"git@h:p"` - answers `false` immediately afterwards. -/
theorem RepoIndex.add_local_has_url_counterexample :
    RepoIndex.add_local ([⟨"other", "https://h/p", "https://h/p"⟩]) ("x") ("GIT@h:p")
      = Except.ok ([⟨"other", "https://h/p", "https://h/p"⟩])
  ∧ RepoIndex.has_url ([⟨"other", "https://h/p", "https://h/p"⟩]) ("GIT@h:p") = false
  ∧ RepoIndex.normalize_url ("GIT@h:p") = "git@h:p"
  ∧ RepoIndex.normalize_url ("git@h:p") = "https://h/p" :=
  ⟨rfl, rfl, rfl, rfl⟩

/-- Filtering preserves the no-duplicate-normalized-URL invariant. -/
theorem RepoIndex.noDup_filter (f : RepoIndex.RepoRecord → Bool)
    (store : List RepoIndex.RepoRecord) (h : RepoIndex.NoDupNormB store = true) :
    RepoIndex.NoDupNormB (store.filter f) = true := by
  induction store with
  | nil => rfl
  | cons r rest ih =>
    simp only [RepoIndex.NoDupNormB, Bool.and_eq_true, List.all_eq_true] at h
    obtain ⟨hall, hrest⟩ := h
    cases hf : f r with
    | false =>
      rw [List.filter_cons_of_neg (by simp [hf])]
      exact ih hrest
    | true =>
      rw [List.filter_cons_of_pos (by simp [hf])]
      simp only [RepoIndex.NoDupNormB, Bool.and_eq_true, List.all_eq_true]
      exact ⟨fun q hq => hall q (List.mem_of_mem_filter hq), ih hrest⟩

/-- Appending a record with a fresh normalized URL preserves the invariant. -/
theorem RepoIndex.noDup_append_one (store : List RepoIndex.RepoRecord)
    (nr : RepoIndex.RepoRecord) (h : RepoIndex.NoDupNormB store = true)
    (hfresh : ∀ r ∈ store, r.normalizedUrl ≠ nr.normalizedUrl) :
    RepoIndex.NoDupNormB (store ++ [nr]) = true := by
  induction store with
  | nil => simp [RepoIndex.NoDupNormB]
  | cons r rest ih =>
    simp only [RepoIndex.NoDupNormB, Bool.and_eq_true, List.all_eq_true] at h
    obtain ⟨hall, hrest⟩ := h
    simp only [List.cons_append, RepoIndex.NoDupNormB, Bool.and_eq_true, List.all_eq_true]
    refine ⟨?_, ih hrest (fun q hq => hfresh q (List.mem_cons_of_mem r hq))⟩
    intro q hq
    rcases List.mem_append.mp hq with hq | hq
    · exact hall q hq
    · rw [List.mem_singleton.mp hq]
      have hne : nr.normalizedUrl ≠ r.normalizedUrl :=
        fun he => (hfresh r (List.mem_cons_self r rest)) he.symm
      simp [beq_false_of_ne hne]

/-- C5 (amended): a sequence of `add_local` operations whose URLs all have
idempotent and nonempty normalizations never introduces two records with
byte-equal `normalizedUrl`: existence is checked before insert and the first
writer wins.  (For inputs with non-idempotent normalization, such as
`"GIT@h:p"`, the check and the inserted value disagree, and duplicates do
get inserted - see the counterexample.) -/
theorem RepoIndex.add_local_seq_no_dup (ops : List (String × String)) :
    ∀ store : List RepoIndex.RepoRecord,
      (∀ op ∈ ops, RepoIndex.normalize_url (RepoIndex.normalize_url op.2)
            = RepoIndex.normalize_url op.2
          ∧ RepoIndex.normalize_url op.2 ≠ "") →
      RepoIndex.NoDupNormB store = true →
      RepoIndex.NoDupNormB (RepoIndex.add_local_seq store ops) = true := by
  induction ops with
  | nil => intro store _ h; exact h
  | cons op rest ih =>
    intro store hops h
    obtain ⟨hidem, hne⟩ := hops op (List.mem_cons_self op rest)
    have hrest := fun q hq => hops q (List.mem_cons_of_mem op hq)
    obtain ⟨n, u⟩ := op
    dsimp only at hidem hne
    simp only [RepoIndex.add_local_seq]
    cases hadd : RepoIndex.add_local store n u with
    | error e => exact h
    | ok st =>
      apply ih st hrest
      simp only [RepoIndex.add_local] at hadd
      split at hadd
      · exact Except.noConfusion hadd
      · split at hadd
        · injection hadd with hst
          subst hst
          exact h
        · rename_i hhas
          injection hadd with hst
          subst hst
          apply RepoIndex.noDup_append_one _ _ (RepoIndex.noDup_filter _ _ h)
          intro r hr hcontra
          have hr' := List.mem_of_mem_filter hr
          dsimp only at hcontra
          apply hhas
          rw [RepoIndex.has_url_eq_any hne, hidem]
          apply List.any_eq_true.mpr
          exact ⟨r, hr', by simp [hcontra, beq_false_of_ne hne]⟩

/-- C5 witness: a well-formed sequence inserts without duplicates. -/
theorem RepoIndex.add_local_seq_no_dup_witness :
    RepoIndex.NoDupNormB (RepoIndex.add_local_seq []
      ([("katana", "git@github.com:projectdiscovery/katana.git"),
        ("katana2", "https://github.com/ProjectDiscovery/Katana.git")])) = true :=
  RepoIndex.add_local_seq_no_dup
    ([("katana", "git@github.com:projectdiscovery/katana.git"),
      ("katana2", "https://github.com/ProjectDiscovery/Katana.git")])
    [] (by decide) rfl

/-- C5 counterexample to the claim as stated: starting from the empty store
(no duplicates), two `add_local` calls with `"GIT@h:p"` insert two records
whose `normalizedUrl` values are byte-equal (`"git@h:p"`): the existence
check normalizes the already-normalized value a second time (to
`"https://h/p"`) and never matches the stored rows. -/
theorem RepoIndex.add_local_duplicate_counterexample :
    RepoIndex.NoDupNormB [] = true
  ∧ (RepoIndex.add_local_seq [] ([("a", "GIT@h:p"), ("b", "GIT@h:p")])).map
        (fun r => r.normalizedUrl) = ["git@h:p", "git@h:p"]
  ∧ RepoIndex.NoDupNormB (RepoIndex.add_local_seq [] ([("a", "GIT@h:p"), ("b", "GIT@h:p")]))
      = false :=
  ⟨rfl, rfl, rfl⟩

/-! ## C1 helper lemmas: character classes -/

theorem urlSafe_ne_bad {c : Char} (h : urlSafeChar c = true) {d : Char}
    (hd : urlSafeChar d = false) : (c == d) = false := by
  cases he : c == d with
  | false => rfl
  | true =>
    rw [beq_iff_eq] at he
    subst he
    rw [h] at hd
    exact Bool.noConfusion hd

theorem pathChar_ne_bad {c : Char} (h : pathChar c = true) {d : Char}
    (hd : pathChar d = false) : (c == d) = false := by
  cases he : c == d with
  | false => rfl
  | true =>
    rw [beq_iff_eq] at he
    subst he
    rw [h] at hd
    exact Bool.noConfusion hd

theorem urlSafe_pathChar {c : Char} (h : urlSafeChar c = true) : pathChar c = true := by
  simp [pathChar, h]

theorem pathChar_not_space {c : Char} (h : pathChar c = true) : isPySpace c = false := by
  simp only [isPySpace]
  rw [@pathChar_ne_bad c h ' ' (by decide), @pathChar_ne_bad c h '\t' (by decide),
      @pathChar_ne_bad c h '\n' (by decide), @pathChar_ne_bad c h '\x0d' (by decide),
      @pathChar_ne_bad c h '\x0b' (by decide), @pathChar_ne_bad c h '\x0c' (by decide)]
  rfl

theorem pathChar_keep {c : Char} (h : pathChar c = true) : keepUrlChar c = true := by
  simp only [keepUrlChar]
  rw [@pathChar_ne_bad c h '\t' (by decide), @pathChar_ne_bad c h '\x0d' (by decide),
      @pathChar_ne_bad c h '\n' (by decide)]
  rfl

theorem pathChar_not_pathStop {c : Char} (h : pathChar c = true) : pathStop c = false := by
  simp only [pathStop]
  rw [@pathChar_ne_bad c h '#' (by decide), @pathChar_ne_bad c h '?' (by decide)]
  rfl

theorem urlSafe_not_netlocStop {c : Char} (h : urlSafeChar c = true) : netlocStop c = false := by
  simp only [netlocStop]
  rw [@urlSafe_ne_bad c h '/' (by decide), @urlSafe_ne_bad c h '?' (by decide),
      @urlSafe_ne_bad c h '#' (by decide)]
  rfl

theorem urlSafe_not_colon {c : Char} (h : urlSafeChar c = true) : isColonChar c = false := by
  simp only [isColonChar]
  exact @urlSafe_ne_bad c h ':' (by decide)

theorem pathChar_not_semi {c : Char} (h : pathChar c = true) : (c == ';') = false :=
  @pathChar_ne_bad c h ';' (by decide)

theorem urlSafe_not_at {c : Char} (h : urlSafeChar c = true) : (c == '@') = false :=
  @urlSafe_ne_bad c h '@' (by decide)

theorem urlSafe_not_bracket {c : Char} (h : urlSafeChar c = true) : (c == '[') = false :=
  @urlSafe_ne_bad c h '[' (by decide)

theorem urlSafe_not_percent {c : Char} (h : urlSafeChar c = true) : (c == '%') = false :=
  @urlSafe_ne_bad c h '%' (by decide)

/-! ## C1 helper lemmas: lowering -/

theorem lowerChar_eq_of_none {c : Char}
    (h : upperLowerTable.find? (fun q => q.1 == c) = none) : lowerChar c = c := by
  unfold lowerChar
  rw [h]

theorem lowerChar_eq_of_some {c : Char} {q : Char × Char}
    (h : upperLowerTable.find? (fun q' => q'.1 == c) = some q) : lowerChar c = q.2 := by
  unfold lowerChar
  rw [h]

theorem table_snd_fixed : ∀ q ∈ upperLowerTable,
    upperLowerTable.find? (fun q' => q'.1 == q.2) = none := by decide

theorem table_snd_safe : ∀ q ∈ upperLowerTable, urlSafeChar q.2 = true := by decide

theorem lowerChar_idem (c : Char) : lowerChar (lowerChar c) = lowerChar c := by
  cases hf : upperLowerTable.find? (fun q => q.1 == c) with
  | none => rw [lowerChar_eq_of_none hf, lowerChar_eq_of_none hf]
  | some q =>
    rw [lowerChar_eq_of_some hf,
        lowerChar_eq_of_none (table_snd_fixed q (List.mem_of_find?_eq_some hf))]

theorem lowerChar_safe {c : Char} (h : urlSafeChar c = true) :
    urlSafeChar (lowerChar c) = true := by
  cases hf : upperLowerTable.find? (fun q => q.1 == c) with
  | none =>
    rw [lowerChar_eq_of_none hf]
    exact h
  | some q =>
    rw [lowerChar_eq_of_some hf]
    exact table_snd_safe q (List.mem_of_find?_eq_some hf)

theorem lowerL_append (a b : Chars) : lowerL (a ++ b) = lowerL a ++ lowerL b :=
  List.map_append lowerChar a b

theorem lowerL_idem (l : Chars) : lowerL (lowerL l) = lowerL l := by
  simp only [lowerL, List.map_map]
  exact List.map_congr_left (fun c _ => lowerChar_idem c)

theorem lowerL_ne_nil {l : Chars} (h : l ≠ []) : lowerL l ≠ [] := by
  simp [lowerL, h]

theorem lowerL_all_safe {l : Chars} (h : ∀ c ∈ l, urlSafeChar c = true) :
    ∀ c ∈ lowerL l, urlSafeChar c = true := by
  intro c hc
  obtain ⟨d, hd, rfl⟩ := List.mem_map.mp hc
  exact lowerChar_safe (h d hd)

/-! ## C1 helper lemmas: list surgery -/

theorem dropWhile_cons_of_false {p : Char → Bool} {c : Char} {cs : Chars} (h : p c = false) :
    (c :: cs).dropWhile p = c :: cs := by
  simp [List.dropWhile, h]

theorem dropWhile_append_all {p : Char → Bool} {xs : Chars} (ys : Chars)
    (h : ∀ c ∈ xs, p c = true) : (xs ++ ys).dropWhile p = ys.dropWhile p := by
  induction xs with
  | nil => rfl
  | cons a as ih =>
    rw [List.cons_append]
    simp only [List.dropWhile, h a (List.mem_cons_self a as)]
    exact ih (fun c hc => h c (List.mem_cons_of_mem a hc))

theorem breakAt_cons_of_true {p : Char → Bool} {c : Char} {cs : Chars} (h : p c = true) :
    breakAt p (c :: cs) = ([], c :: cs) := by
  simp [breakAt, h]

theorem breakAt_cons_of_false {p : Char → Bool} {c : Char} {cs : Chars} (h : p c = false) :
    breakAt p (c :: cs) = (c :: (breakAt p cs).1, (breakAt p cs).2) := by
  simp [breakAt, h]

theorem breakAt_all_false {p : Char → Bool} {l : Chars} (h : ∀ c ∈ l, p c = false) :
    breakAt p l = (l, []) := by
  induction l with
  | nil => rfl
  | cons a as ih =>
    rw [breakAt_cons_of_false (h a (List.mem_cons_self a as)),
        ih (fun c hc => h c (List.mem_cons_of_mem a hc))]

theorem breakAt_append_all_false {p : Char → Bool} {xs : Chars} (ys : Chars)
    (h : ∀ c ∈ xs, p c = false) :
    breakAt p (xs ++ ys) = (xs ++ (breakAt p ys).1, (breakAt p ys).2) := by
  induction xs with
  | nil => rfl
  | cons a as ih =>
    rw [List.cons_append, breakAt_cons_of_false (h a (List.mem_cons_self a as)),
        ih (fun c hc => h c (List.mem_cons_of_mem a hc))]
    rfl

theorem filter_all_keep {p : Char → Bool} {l : Chars} (h : ∀ c ∈ l, p c = true) :
    l.filter p = l := List.filter_eq_self.mpr h

theorem isPrefixOf_append_self (l x : Chars) : l.isPrefixOf (l ++ x) = true := by
  induction l with
  | nil => simp [List.isPrefixOf]
  | cons a as ih => simp [List.isPrefixOf, ih]

theorem isSuffixOf_append_self (l x : Chars) : List.isSuffixOf l (x ++ l) = true := by
  unfold List.isSuffixOf
  rw [List.reverse_append]
  exact isPrefixOf_append_self l.reverse x.reverse

theorem dropLast4_append (x : Chars) (a b c d : Char) :
    dropLast4 (x ++ ([a, b, c, d] : Chars)) = x := by
  unfold dropLast4
  have hl : (x ++ ([a, b, c, d] : Chars)).length - 4 = x.length := by
    simp [List.length_append]
  rw [hl]
  exact List.take_left x ([a, b, c, d])

theorem rstripSlash_concat_slash (x : Chars) :
    rstripSlash (x ++ (['/'] : Chars)) = rstripSlash x := by
  unfold rstripSlash
  rw [List.reverse_append]
  simp [List.dropWhile]

theorem rstripSlash_of_last_ne {x : Chars}
    (h : ∀ c, x.getLast? = some c → (c == '/') = false) : rstripSlash x = x := by
  unfold rstripSlash
  cases hx : x.reverse with
  | nil =>
    have hxe : x = [] := by
      have h2 := congrArg List.reverse hx
      rwa [List.reverse_reverse] at h2
    rw [hxe]
    rfl
  | cons a as =>
    have ha : x.getLast? = some a := by
      rw [← List.head?_reverse, hx]
      rfl
    rw [@dropWhile_cons_of_false (fun c => c == '/') a as (h a ha), ← hx,
        List.reverse_reverse]

theorem pyStrip_sandwich {w1 w2 core : Chars}
    (h1 : ∀ c ∈ w1, isPySpace c = true) (h2 : ∀ c ∈ w2, isPySpace c = true)
    (hh : ∀ c, core.head? = some c → isPySpace c = false)
    (hl : ∀ c, core.getLast? = some c → isPySpace c = false)
    (hne : core ≠ []) :
    pyStrip (w1 ++ core ++ w2) = core := by
  obtain ⟨c, cs, rfl⟩ := List.exists_cons_of_ne_nil hne
  unfold pyStrip
  rw [List.append_assoc, dropWhile_append_all _ h1, List.cons_append,
      dropWhile_cons_of_false (hh c rfl)]
  rw [← List.cons_append, List.reverse_append,
      dropWhile_append_all _ (fun d hd => h2 d (List.mem_reverse.mp hd))]
  cases hx : (c :: cs).reverse with
  | nil => exact absurd (congrArg List.length hx) (by simp)
  | cons a as =>
    have ha : (c :: cs).getLast? = some a := by
      rw [← List.head?_reverse, hx]
      rfl
    rw [dropWhile_cons_of_false (hl a ha), ← hx, List.reverse_reverse]

/-! ## C1: computation of the URL parser on well-formed inputs -/

/-- `urlsplit` on `scheme:⁣//host/tail` with a clean scheme literal, a safe
host and a safe tail. -/
theorem pyUrlsplit_std (sch h t : Chars)
    (hsne : sch ≠ [])
    (hC0 : ∀ c ∈ sch, isC0OrSpace c = false)
    (hkeep : ∀ c ∈ sch, keepUrlChar c = true)
    (hcolon : ∀ c ∈ sch, isColonChar c = false)
    (hscheme : (headAlpha sch && sch.all isSchemeChar) = true)
    (hlower : lowerL sch = sch)
    (hh : ∀ c ∈ h, urlSafeChar c = true)
    (ht : ∀ c ∈ t, pathChar c = true) :
    pyUrlsplit (sch ++ ':' :: '/' :: '/' :: (h ++ '/' :: t)) = ⟨sch, h, '/' :: t⟩ := by
  have hL0 : (sch ++ ':' :: '/' :: '/' :: (h ++ '/' :: t)).dropWhile isC0OrSpace
      = sch ++ ':' :: '/' :: '/' :: (h ++ '/' :: t) := by
    obtain ⟨c0, sch', rfl⟩ := List.exists_cons_of_ne_nil hsne
    rw [List.cons_append]
    exact dropWhile_cons_of_false (hC0 c0 (List.mem_cons_self c0 sch'))
  have hL1 : (sch ++ ':' :: '/' :: '/' :: (h ++ '/' :: t)).filter keepUrlChar
      = sch ++ ':' :: '/' :: '/' :: (h ++ '/' :: t) := by
    apply filter_all_keep
    intro c hc
    rcases List.mem_append.mp hc with hc | hc
    · exact hkeep c hc
    · simp only [List.mem_cons] at hc
      rcases hc with rfl | rfl | rfl | hc
      · rfl
      · rfl
      · rfl
      · rcases List.mem_append.mp hc with hc | hc
        · exact pathChar_keep (urlSafe_pathChar (hh c hc))
        · simp only [List.mem_cons] at hc
          rcases hc with rfl | hc
          · rfl
          · exact pathChar_keep (ht c hc)
  have hB : breakAt isColonChar (sch ++ ':' :: '/' :: '/' :: (h ++ '/' :: t))
      = (sch, ':' :: '/' :: '/' :: (h ++ '/' :: t)) := by
    rw [breakAt_append_all_false _ hcolon,
        breakAt_cons_of_true (show isColonChar ':' = true by decide)]
    simp
  have hN : breakAt netlocStop (h ++ '/' :: t) = (h, '/' :: t) := by
    rw [breakAt_append_all_false _ (fun c hc => urlSafe_not_netlocStop (hh c hc)),
        breakAt_cons_of_true (show netlocStop '/' = true by decide)]
    simp
  have hP : breakAt pathStop ('/' :: t) = ('/' :: t, []) := by
    apply breakAt_all_false
    intro c hc
    simp only [List.mem_cons] at hc
    rcases hc with rfl | hc
    · rfl
    · exact pathChar_not_pathStop (ht c hc)
  unfold pyUrlsplit
  simp only [hL0, hL1, hB, hscheme, if_true, hlower]
  simp only [List.isPrefixOf, beq_self_eq_true, Bool.and_self, Bool.true_and, if_true,
    List.drop_succ_cons, List.drop_zero, hN, hP]

/-- `needle in hay` is false for a single character absent from the list. -/
theorem containsSub_single_false {d : Char} {l : Chars}
    (h : ∀ c ∈ l, (c == d) = false) : containsSub (d :: []) l = false := by
  induction l with
  | nil => rfl
  | cons a as ih =>
    have hda : (d == a) = false := by
      cases he : d == a with
      | false => rfl
      | true =>
        rw [beq_iff_eq] at he
        subst he
        have hc := h d (List.mem_cons_self d as)
        rw [beq_self_eq_true] at hc
        exact hc
    simp only [containsSub, List.isPrefixOf, hda, Bool.false_and, Bool.false_or]
    exact ih (fun c hc => h c (List.mem_cons_of_mem a hc))

/-- `_splitparams` leaves a semicolon-free path alone. -/
theorem splitparamsPath_noop {path : Chars} (h : ∀ c ∈ path, (c == ';') = false) :
    splitparamsPath path = path := by
  unfold splitparamsPath
  rw [containsSub_single_false h]
  rfl

/-- `urlparse` on `scheme:⁣//host/tail`. -/
theorem pyUrlparse_std (sch h t : Chars)
    (hsne : sch ≠ [])
    (hC0 : ∀ c ∈ sch, isC0OrSpace c = false)
    (hkeep : ∀ c ∈ sch, keepUrlChar c = true)
    (hcolon : ∀ c ∈ sch, isColonChar c = false)
    (hscheme : (headAlpha sch && sch.all isSchemeChar) = true)
    (hlower : lowerL sch = sch)
    (hh : ∀ c ∈ h, urlSafeChar c = true)
    (ht : ∀ c ∈ t, pathChar c = true) :
    pyUrlparse (sch ++ ':' :: '/' :: '/' :: (h ++ '/' :: t)) = ⟨sch, h, '/' :: t⟩ := by
  unfold pyUrlparse
  rw [pyUrlsplit_std sch h t hsne hC0 hkeep hcolon hscheme hlower hh ht]
  have hs : splitparamsPath ('/' :: t) = '/' :: t := by
    apply splitparamsPath_noop
    intro c hc
    simp only [List.mem_cons] at hc
    rcases hc with rfl | hc
    · rfl
    · exact pathChar_not_semi (ht c hc)
  simp only [hs]

/-- `hostname` of a safe nonempty netloc is the lower-cased netloc. -/
theorem pyHostname_safe {h : Chars} (hne : h ≠ []) (hh : ∀ c ∈ h, urlSafeChar c = true) :
    pyHostname h = some (lowerL h) := by
  have haft : afterLast '@' h = h := by
    unfold afterLast
    rw [breakAt_all_false (fun c hc =>
      (by
        have := urlSafe_not_at (hh c (List.mem_reverse.mp hc))
        simpa using this))]
    exact List.reverse_reverse h
  have hbr : containsSub ('[' :: []) h = false :=
    containsSub_single_false (fun c hc => urlSafe_not_bracket (hh c hc))
  have hcol : breakAt isColonChar h = (h, []) :=
    breakAt_all_false (fun c hc => urlSafe_not_colon (hh c hc))
  have hpct : breakAt (fun c => c == '%') h = (h, []) :=
    breakAt_all_false (fun c hc => urlSafe_not_percent (hh c hc))
  unfold pyHostname
  simp only [haft, hbr, Bool.false_eq_true, if_false, hcol]
  obtain ⟨c, cs, rfl⟩ := List.exists_cons_of_ne_nil hne
  simp only [hpct]
  rw [List.append_nil]

/-! ## C1: well-formedness plumbing -/

theorem HostOk.allSafe {h : Chars} (H : HostOk h) : ∀ c ∈ h, urlSafeChar c = true := by
  intro c hc
  have := List.all_eq_true.mp H.2 c hc
  simpa using this

theorem PathOk.allPath {p : Chars} (H : PathOk p) : ∀ c ∈ p, pathChar c = true := by
  intro c hc
  have := List.all_eq_true.mp H.2.1 c hc
  simpa using this

theorem mem_of_head?_eq {l : Chars} {c : Char} (h : l.head? = some c) : c ∈ l := by
  cases l with
  | nil => exact Option.noConfusion h
  | cons a as =>
    injection h with h
    subst h
    exact List.mem_cons_self a as

theorem getLast?_append_right {xs ys : Chars} (h : ys ≠ []) :
    (xs ++ ys).getLast? = ys.getLast? := by
  rw [← List.head?_reverse, ← List.head?_reverse, List.reverse_append]
  have hyr : ys.reverse ≠ [] := by
    intro hn
    apply h
    have h2 := congrArg List.reverse hn
    rwa [List.reverse_reverse] at h2
  obtain ⟨c, cs, hcc⟩ := List.exists_cons_of_ne_nil hyr
  rw [hcc]
  rfl

theorem mem_of_getLast?_eq {l : Chars} {c : Char} (h : l.getLast? = some c) : c ∈ l := by
  rw [← List.head?_reverse] at h
  exact List.mem_reverse.mp (mem_of_head?_eq h)

theorem gitSuffix_pathChar (g : Bool) : ∀ c ∈ gitSuffix g, pathChar c = true := by
  cases g with
  | false => intro c hc; exact absurd hc (List.not_mem_nil c)
  | true =>
    intro c hc
    simp only [gitSuffix, if_true, List.mem_cons] at hc
    rcases hc with rfl | rfl | rfl | rfl | hc
    · rfl
    · rfl
    · rfl
    · rfl
    · exact absurd hc (List.not_mem_nil c)

theorem slashSuffix_pathChar (s : Bool) : ∀ c ∈ slashSuffix s, pathChar c = true := by
  cases s with
  | false => intro c hc; exact absurd hc (List.not_mem_nil c)
  | true =>
    intro c hc
    simp only [slashSuffix, if_true, List.mem_cons] at hc
    rcases hc with rfl | hc
    · rfl
    · exact absurd hc (List.not_mem_nil c)

theorem tail_pathChar {p : Chars} (hp : ∀ c ∈ p, pathChar c = true) (g s : Bool) :
    ∀ c ∈ p ++ gitSuffix g ++ slashSuffix s, pathChar c = true := by
  intro c hc
  rcases List.mem_append.mp hc with hc | hc
  · rcases List.mem_append.mp hc with hc | hc
    · exact hp c hc
    · exact gitSuffix_pathChar g c hc
  · exact slashSuffix_pathChar s c hc

theorem tail_ne_nil {p : Chars} (hne : p ≠ []) (g s : Bool) :
    p ++ gitSuffix g ++ slashSuffix s ≠ [] := by
  intro h
  rcases List.append_eq_nil.mp h with ⟨h1, _⟩
  rcases List.append_eq_nil.mp h1 with ⟨h2, _⟩
  exact hne h2

/-! ## C1: the path-normalisation steps of the http branch -/

theorem endsGit_with_suffix (x : Chars) :
    endsGit (x ++ ('.' :: 'g' :: 'i' :: 't' :: [])) = true :=
  isSuffixOf_append_self _ x

theorem last_pGit_ne_slash {p : Chars} (g : Bool) (Hp : PathOk p) :
    ∀ c, ('/' :: (p ++ gitSuffix g)).getLast? = some c → (c == '/') = false := by
  intro c hc
  cases g with
  | true =>
    have ht : ('/' :: (p ++ gitSuffix true)).getLast? = some 't' := by
      rw [show ('/' :: (p ++ gitSuffix true)) = ('/' :: (p ++ ('.' :: 'g' :: 'i' :: []))) ++ (['t'] : Chars) by
        simp [gitSuffix]]
      exact List.getLast?_concat _
    rw [ht] at hc
    injection hc with hc
    subst hc
    rfl
  | false =>
    rw [show gitSuffix false = ([] : Chars) from rfl, List.append_nil] at hc
    have hp : ('/' :: p).getLast? = p.getLast? := by
      rw [show ('/' :: p) = (['/'] : Chars) ++ p from rfl]
      exact getLast?_append_right Hp.1
    rw [hp] at hc
    cases he : c == '/' with
    | false => rfl
    | true =>
      rw [beq_iff_eq] at he
      subst he
      exact absurd hc Hp.2.2.2.1

theorem rstrip_tail {p : Chars} (g s : Bool) (Hp : PathOk p) :
    rstripSlash ('/' :: (p ++ gitSuffix g ++ slashSuffix s)) = '/' :: (p ++ gitSuffix g) := by
  cases s with
  | true =>
    rw [show ('/' :: (p ++ gitSuffix g ++ slashSuffix true))
        = ('/' :: (p ++ gitSuffix g)) ++ (['/'] : Chars) by simp [slashSuffix]]
    rw [rstripSlash_concat_slash]
    exact rstripSlash_of_last_ne (last_pGit_ne_slash g Hp)
  | false =>
    rw [show slashSuffix false = ([] : Chars) from rfl, List.append_nil]
    exact rstripSlash_of_last_ne (last_pGit_ne_slash g Hp)

theorem stripGit_tail {p : Chars} (g : Bool) (Hp : PathOk p) :
    (if endsGit ('/' :: (p ++ gitSuffix g)) then dropLast4 ('/' :: (p ++ gitSuffix g))
     else ('/' :: (p ++ gitSuffix g))) = '/' :: p := by
  cases g with
  | true =>
    rw [show ('/' :: (p ++ gitSuffix true)) = ('/' :: p) ++ ('.' :: 'g' :: 'i' :: 't' :: []) by
      simp [gitSuffix]]
    rw [endsGit_with_suffix]
    simp only [if_true]
    exact dropLast4_append ('/' :: p) '.' 'g' 'i' 't'
  | false =>
    rw [show gitSuffix false = ([] : Chars) from rfl, List.append_nil]
    rw [Hp.2.2.2.2]
    simp

/-! ## C1: the three rewriting blocks on rendered URLs -/

theorem httpCanon_std {h p : Chars} (g s : Bool) (Hh : HostOk h) (Hp : PathOk p) :
    RepoIndex.httpCanon
        ('h' :: 't' :: 't' :: 'p' :: 's' :: ':' :: '/' :: '/' ::
          (h ++ '/' :: (p ++ gitSuffix g ++ slashSuffix s)))
      = 'h' :: 't' :: 't' :: 'p' :: 's' :: ':' :: '/' :: '/' :: (lowerL h ++ '/' :: p) := by
  have hparse := pyUrlparse_std ('h' :: 't' :: 't' :: 'p' :: 's' :: []) h
    (p ++ gitSuffix g ++ slashSuffix s)
    (by decide) (by decide) (by decide) (by decide) (by decide) (by decide)
    (HostOk.allSafe Hh) (tail_pathChar (PathOk.allPath Hp) g s)
  unfold RepoIndex.httpCanon
  rw [show ('h' :: 't' :: 't' :: 'p' :: 's' :: ':' :: '/' :: '/' ::
      (h ++ '/' :: (p ++ gitSuffix g ++ slashSuffix s)))
    = ('h' :: 't' :: 't' :: 'p' :: 's' :: []) ++ ':' :: '/' :: '/' ::
      (h ++ '/' :: (p ++ gitSuffix g ++ slashSuffix s)) from rfl]
  simp only [hparse]
  have hsch : ((('h' :: 't' :: 't' :: 'p' :: 's' :: [] : Chars) == ('h' :: 't' :: 't' :: 'p' :: []))
      || (('h' :: 't' :: 't' :: 'p' :: 's' :: [] : Chars) == ('h' :: 't' :: 't' :: 'p' :: 's' :: []))) = true := by
    decide
  have hnet : ((h : Chars) == []) = false := beq_false_of_ne Hh.1
  simp only [hsch, hnet, Bool.not_false, Bool.and_self, if_true, Bool.true_and]
  rw [rstrip_tail g s Hp, stripGit_tail g Hp]
  rfl

theorem scpRewrite_std {h t : Chars} (Hh : HostOk h) :
    RepoIndex.scpRewrite ('g' :: 'i' :: 't' :: '@' :: (h ++ ':' :: t))
      = 'h' :: 't' :: 't' :: 'p' :: 's' :: ':' :: '/' :: '/' :: (h ++ '/' :: t) := by
  have hb1 : breakAt (fun c => c == ':') ('g' :: 'i' :: 't' :: '@' :: (h ++ ':' :: t))
      = ('g' :: 'i' :: 't' :: '@' :: h, ':' :: t) := by
    rw [show ('g' :: 'i' :: 't' :: '@' :: (h ++ ':' :: t))
        = ('g' :: 'i' :: 't' :: '@' :: []) ++ (h ++ ':' :: t) from rfl]
    rw [breakAt_append_all_false _ (by decide)]
    rw [breakAt_append_all_false _ (fun c hc => by
      have hcc := urlSafe_not_colon (HostOk.allSafe Hh c hc)
      simpa [isColonChar] using hcc)]
    rw [@breakAt_cons_of_true (fun c => c == ':') ':' t (by decide)]
    simp
  have hb2 : breakAt (fun c => c == '@') ('g' :: 'i' :: 't' :: '@' :: h)
      = ('g' :: 'i' :: 't' :: [], '@' :: h) := by
    rw [show ('g' :: 'i' :: 't' :: '@' :: h) = ('g' :: 'i' :: 't' :: []) ++ ('@' :: h) from rfl]
    rw [breakAt_append_all_false _ (by decide)]
    rw [@breakAt_cons_of_true (fun c => c == '@') '@' h (by decide)]
    simp
  unfold RepoIndex.scpRewrite splitFirst
  simp only [hb1, hb2]
  rfl

theorem sshRewrite_std {h t : Chars} (Hh : HostOk h) (ht : ∀ c ∈ t, pathChar c = true) :
    RepoIndex.sshRewrite ('s' :: 's' :: 'h' :: ':' :: '/' :: '/' :: (h ++ '/' :: t))
      = 'h' :: 't' :: 't' :: 'p' :: 's' :: ':' :: '/' :: '/' :: (lowerL h ++ '/' :: t) := by
  have hparse := pyUrlparse_std ('s' :: 's' :: 'h' :: []) h t
    (by decide) (by decide) (by decide) (by decide) (by decide) (by decide)
    (HostOk.allSafe Hh) ht
  unfold RepoIndex.sshRewrite
  rw [show ('s' :: 's' :: 'h' :: ':' :: '/' :: '/' :: (h ++ '/' :: t))
    = ('s' :: 's' :: 'h' :: []) ++ ':' :: '/' :: '/' :: (h ++ '/' :: t) from rfl]
  simp only [hparse]
  rw [pyHostname_safe Hh.1 (HostOk.allSafe Hh)]
  simp [List.append_assoc]

theorem renderChars_ne_nil (f : UrlForm) (h p : Chars) (g s : Bool) :
    renderChars f h p g s ≠ [] := by
  cases f <;> simp [renderChars]

theorem renderChars_all_nonspace {f : UrlForm} {h p : Chars} {g s : Bool}
    (Hh : HostOk h) (Hp : PathOk p) :
    ∀ c ∈ renderChars f h p g s, isPySpace c = false := by
  have hhs : ∀ c ∈ h, isPySpace c = false :=
    fun c hc => pathChar_not_space (urlSafe_pathChar (HostOk.allSafe Hh c hc))
  have hp1 : ∀ c ∈ p, isPySpace c = false :=
    fun c hc => pathChar_not_space (PathOk.allPath Hp c hc)
  have hp2 : ∀ c ∈ gitSuffix g, isPySpace c = false :=
    fun c hc => pathChar_not_space (gitSuffix_pathChar g c hc)
  have hp3 : ∀ c ∈ slashSuffix s, isPySpace c = false :=
    fun c hc => pathChar_not_space (slashSuffix_pathChar s c hc)
  intro c hc
  cases f with
  | scp =>
    simp only [renderChars, List.mem_cons, List.mem_append] at hc
    rcases hc with rfl | rfl | rfl | rfl | hc | rfl | hc
    · rfl
    · rfl
    · rfl
    · rfl
    · exact hhs c hc
    · rfl
    · rcases hc with (hc | hc) | hc
      · exact hp1 c hc
      · exact hp2 c hc
      · exact hp3 c hc
  | ssh =>
    simp only [renderChars, List.mem_cons, List.mem_append] at hc
    rcases hc with rfl | rfl | rfl | rfl | rfl | rfl | hc | rfl | hc
    · rfl
    · rfl
    · rfl
    · rfl
    · rfl
    · rfl
    · exact hhs c hc
    · rfl
    · rcases hc with (hc | hc) | hc
      · exact hp1 c hc
      · exact hp2 c hc
      · exact hp3 c hc
  | https =>
    simp only [renderChars, List.mem_cons, List.mem_append] at hc
    rcases hc with rfl | rfl | rfl | rfl | rfl | rfl | rfl | rfl | hc | rfl | hc
    · rfl
    · rfl
    · rfl
    · rfl
    · rfl
    · rfl
    · rfl
    · rfl
    · exact hhs c hc
    · rfl
    · rcases hc with (hc | hc) | hc
      · exact hp1 c hc
      · exact hp2 c hc
      · exact hp3 c hc

theorem lowerTrim_canon {x p : Chars} (Hp : PathOk p) :
    lowerL (if ('h' :: 't' :: 't' :: 'p' :: 's' :: ':' :: '/' :: '/' :: (lowerL x ++ '/' :: p)).getLast?
              == some '/'
            then ('h' :: 't' :: 't' :: 'p' :: 's' :: ':' :: '/' :: '/' :: (lowerL x ++ '/' :: p)).dropLast
            else ('h' :: 't' :: 't' :: 'p' :: 's' :: ':' :: '/' :: '/' :: (lowerL x ++ '/' :: p)))
      = 'h' :: 't' :: 't' :: 'p' :: 's' :: ':' :: '/' :: '/' :: (lowerL x ++ '/' :: lowerL p) := by
  have hlast : ('h' :: 't' :: 't' :: 'p' :: 's' :: ':' :: '/' :: '/' :: (lowerL x ++ '/' :: p)).getLast?
      = p.getLast? := by
    rw [show ('h' :: 't' :: 't' :: 'p' :: 's' :: ':' :: '/' :: '/' :: (lowerL x ++ '/' :: p))
        = ('h' :: 't' :: 't' :: 'p' :: 's' :: ':' :: '/' :: '/' :: (lowerL x ++ (['/'] : Chars))) ++ p by
      simp]
    exact getLast?_append_right Hp.1
  have hcond : (('h' :: 't' :: 't' :: 'p' :: 's' :: ':' :: '/' :: '/' :: (lowerL x ++ '/' :: p)).getLast?
      == some '/') = false := by
    rw [hlast]
    exact beq_false_of_ne Hp.2.2.2.1
  simp only [hcond, Bool.false_eq_true, if_false]
  simp only [lowerL, List.map_cons, List.map_append]
  rw [(by decide : lowerChar 'h' = 'h'), (by decide : lowerChar 't' = 't'),
      (by decide : lowerChar 'p' = 'p'), (by decide : lowerChar 's' = 's'),
      (by decide : lowerChar ':' = ':'), (by decide : lowerChar '/' = '/')]
  have hid : List.map lowerChar (List.map lowerChar x) = List.map lowerChar x := by
    have h2 := lowerL_idem x
    simpa [lowerL] using h2
  rw [hid]

/-- Any whitespace-wrapped rendering of repository `host/path` (SCP `git@`,
`ssh://` or `https://` form, optional `.git`, optional trailing slash)
normalizes to the lower-cased `https://host/path`. -/
theorem normChars_render (f : UrlForm) (h p : Chars) (g s : Bool) (w1 w2 : Chars)
    (Hh : HostOk h) (Hp : PathOk p) (Hw1 : AllSpace w1) (Hw2 : AllSpace w2) :
    RepoIndex.normChars (w1 ++ renderChars f h p g s ++ w2)
      = 'h' :: 't' :: 't' :: 'p' :: 's' :: ':' :: '/' :: '/' :: (lowerL h ++ '/' :: lowerL p) := by
  have hw1 : ∀ c ∈ w1, isPySpace c = true := by
    intro c hc
    have hx := List.all_eq_true.mp Hw1 c hc
    simpa using hx
  have hw2 : ∀ c ∈ w2, isPySpace c = true := by
    intro c hc
    have hx := List.all_eq_true.mp Hw2 c hc
    simpa using hx
  have hns := @renderChars_all_nonspace f h p g s Hh Hp
  have hne := renderChars_ne_nil f h p g s
  have hstrip : pyStrip (w1 ++ renderChars f h p g s ++ w2) = renderChars f h p g s :=
    pyStrip_sandwich hw1 hw2 (fun c hc => hns c (mem_of_head?_eq hc))
      (fun c hc => hns c (mem_of_getLast?_eq hc)) hne
  have hLne : (w1 ++ renderChars f h p g s ++ w2) ≠ [] := by
    intro hnil
    rcases List.append_eq_nil.mp hnil with ⟨h1, _⟩
    rcases List.append_eq_nil.mp h1 with ⟨_, h2⟩
    exact hne h2
  have hbeq : ((w1 ++ renderChars f h p g s ++ w2 : Chars) == ([] : Chars)) = false :=
    beq_false_of_ne hLne
  have htp := tail_pathChar (PathOk.allPath Hp) g s
  unfold RepoIndex.normChars
  simp only [hbeq, Bool.false_eq_true, if_false, hstrip]
  cases f with
  | https =>
    have hpre1 : (('g' :: 'i' :: 't' :: '@' :: [] : Chars)).isPrefixOf
        (renderChars UrlForm.https h p g s) = false := rfl
    have hpre2 : (('s' :: 's' :: 'h' :: ':' :: '/' :: '/' :: [] : Chars)).isPrefixOf
        (renderChars UrlForm.https h p g s) = false := rfl
    simp only [hpre1, hpre2, Bool.false_eq_true, if_false]
    rw [show renderChars UrlForm.https h p g s
        = 'h' :: 't' :: 't' :: 'p' :: 's' :: ':' :: '/' :: '/' ::
            (h ++ '/' :: (p ++ gitSuffix g ++ slashSuffix s)) from rfl]
    rw [httpCanon_std g s Hh Hp]
    exact lowerTrim_canon Hp
  | scp =>
    have hpre1 : (('g' :: 'i' :: 't' :: '@' :: [] : Chars)).isPrefixOf
        (renderChars UrlForm.scp h p g s) = true := by
      rw [show renderChars UrlForm.scp h p g s
          = ('g' :: 'i' :: 't' :: '@' :: []) ++ (h ++ ':' :: (p ++ gitSuffix g ++ slashSuffix s))
          from rfl]
      exact isPrefixOf_append_self _ _
    simp only [hpre1, if_true]
    rw [show renderChars UrlForm.scp h p g s
        = 'g' :: 'i' :: 't' :: '@' :: (h ++ ':' :: (p ++ gitSuffix g ++ slashSuffix s)) from rfl]
    rw [scpRewrite_std Hh]
    have hpre2 : (('s' :: 's' :: 'h' :: ':' :: '/' :: '/' :: [] : Chars)).isPrefixOf
        ('h' :: 't' :: 't' :: 'p' :: 's' :: ':' :: '/' :: '/' ::
          (h ++ '/' :: (p ++ gitSuffix g ++ slashSuffix s))) = false := rfl
    simp only [hpre2, Bool.false_eq_true, if_false]
    rw [httpCanon_std g s Hh Hp]
    exact lowerTrim_canon Hp
  | ssh =>
    have hpre1 : (('g' :: 'i' :: 't' :: '@' :: [] : Chars)).isPrefixOf
        (renderChars UrlForm.ssh h p g s) = false := rfl
    simp only [hpre1, Bool.false_eq_true, if_false]
    have hpre2 : (('s' :: 's' :: 'h' :: ':' :: '/' :: '/' :: [] : Chars)).isPrefixOf
        (renderChars UrlForm.ssh h p g s) = true := by
      rw [show renderChars UrlForm.ssh h p g s
          = ('s' :: 's' :: 'h' :: ':' :: '/' :: '/' :: [])
              ++ (h ++ '/' :: (p ++ gitSuffix g ++ slashSuffix s)) from rfl]
      exact isPrefixOf_append_self _ _
    simp only [hpre2, if_true]
    rw [show renderChars UrlForm.ssh h p g s
        = 's' :: 's' :: 'h' :: ':' :: '/' :: '/' ::
            (h ++ '/' :: (p ++ gitSuffix g ++ slashSuffix s)) from rfl]
    rw [sshRewrite_std Hh htp]
    have HhL : HostOk (lowerL h) := by
      refine ⟨lowerL_ne_nil Hh.1, ?_⟩
      rw [List.all_eq_true]
      intro c hc
      have hx := lowerL_all_safe (HostOk.allSafe Hh) c hc
      simpa using hx
    rw [httpCanon_std g s HhL Hp, lowerL_idem h]
    exact lowerTrim_canon Hp

/-- C1 (amended): any two URL strings denoting the same repository under
SCP-style-with-user-`git` (`git@host:path`), `ssh://host/path`, or
`https://host/path` syntax - differing only in which of those syntaxes is
used, a trailing `.git`, a trailing slash, surrounding whitespace, or host
letter-case - have equal `normalize_url` images, and the common result is
the fully lower-cased `https://host/path` form.  (For SCP-style URLs with a
user other than `git` the code does not rewrite to `https` at all - see the
counterexample.) -/
theorem RepoIndex.normalize_url_same_repo (f1 f2 : UrlForm) (h1 h2 p : Chars)
    (g1 g2 s1 s2 : Bool) (w1 w2 w3 w4 : Chars)
    (Hh1 : HostOk h1) (Hh2 : HostOk h2) (Hp : PathOk p)
    (Hcase : lowerL h1 = lowerL h2)
    (Hw1 : AllSpace w1) (Hw2 : AllSpace w2) (Hw3 : AllSpace w3) (Hw4 : AllSpace w4) :
    RepoIndex.normalize_url (renderUrl f1 h1 p g1 s1 w1 w2)
      = RepoIndex.normalize_url (renderUrl f2 h2 p g2 s2 w3 w4)
    ∧ RepoIndex.normalize_url (renderUrl f1 h1 p g1 s1 w1 w2)
      = String.mk ('h' :: 't' :: 't' :: 'p' :: 's' :: ':' :: '/' :: '/' ::
          (lowerL h1 ++ '/' :: lowerL p)) := by
  have e1 : RepoIndex.normalize_url (renderUrl f1 h1 p g1 s1 w1 w2)
      = String.mk (RepoIndex.normChars (w1 ++ renderChars f1 h1 p g1 s1 ++ w2)) := rfl
  have e2 : RepoIndex.normalize_url (renderUrl f2 h2 p g2 s2 w3 w4)
      = String.mk (RepoIndex.normChars (w3 ++ renderChars f2 h2 p g2 s2 ++ w4)) := rfl
  rw [e1, e2, normChars_render f1 h1 p g1 s1 w1 w2 Hh1 Hp Hw1 Hw2,
      normChars_render f2 h2 p g2 s2 w3 w4 Hh2 Hp Hw3 Hw4, Hcase]
  exact ⟨rfl, rfl⟩

/-- C1 witness: `"  git@GitHub.COM:Foo/Bar.git"` and
`"https://github.com/Foo/Bar/ "` normalize to the same
`"https://github.com/foo/bar"`. -/
theorem RepoIndex.normalize_url_same_repo_witness :
    RepoIndex.normalize_url
        (renderUrl UrlForm.scp ("GitHub.COM".data) ("Foo/Bar".data) true false ("  ".data) ([]))
      = RepoIndex.normalize_url
        (renderUrl UrlForm.https ("github.com".data) ("Foo/Bar".data) false true ([]) (" ".data))
    ∧ RepoIndex.normalize_url
        (renderUrl UrlForm.scp ("GitHub.COM".data) ("Foo/Bar".data) true false ("  ".data) ([]))
      = String.mk ('h' :: 't' :: 't' :: 'p' :: 's' :: ':' :: '/' :: '/' ::
          (lowerL ("GitHub.COM".data) ++ '/' :: lowerL ("Foo/Bar".data))) :=
  RepoIndex.normalize_url_same_repo UrlForm.scp UrlForm.https ("GitHub.COM".data)
    ("github.com".data) ("Foo/Bar".data) true false false true ("  ".data) ([]) ([]) (" ".data)
    (by decide) (by decide) (by decide) (by decide) (by decide) (by decide) (by decide) (by decide)

/-- C1 counterexample to the claim as stated: the SCP-style URL
`alice@github.com:foo/bar` (user `alice` rather than `git`) denotes the
same repository as `https://github.com/foo/bar`, but `normalize_url` leaves
it untouched (the rewrite fires only on the `git@` prefix), so the two
normalizations differ. -/
theorem RepoIndex.normalize_url_scp_user_counterexample :
    RepoIndex.normalize_url ("alice@github.com:foo/bar") = "alice@github.com:foo/bar"
  ∧ RepoIndex.normalize_url ("https://github.com/foo/bar") = "https://github.com/foo/bar"
  ∧ (RepoIndex.normalize_url ("alice@github.com:foo/bar")
      == RepoIndex.normalize_url ("https://github.com/foo/bar")) = false :=
  ⟨rfl, rfl, rfl⟩
